import Mathlib

/-!
Verification development for the dosbox-staging text-mode control channel
(`src/textmode_server`).  The C++ sources are shallowly embedded as
executable Lean definitions: `std::string` values become `List Char` (or
`String` at the boundaries), machine integers become `Nat`, functions that
can throw a C++ exception return `Except String`, and the external
collaborators (keyboard injector, frame provider, network send/close hooks)
are abstracted as parameters whose invocations are recorded as events.
-/

namespace Textmode

/-! ## Character and string helpers (ASCII semantics of `<cctype>`) -/

/-- `std::isspace` in the C locale: space, `\t`, `\n`, `\v`, `\f`, `\r`. -/
def isSpaceChar (c : Char) : Bool :=
  c = ' ' || c = '\t' || c = '\n' || c = '\x0B' || c = '\x0C' || c = '\r'

/-- Characters stripped by `trim` / `Trim`: `" \t\r\n"`. -/
def isTrimChar (c : Char) : Bool :=
  c = ' ' || c = '\t' || c = '\r' || c = '\n'

/-- `trim` from command_processor.cpp: strip leading and trailing `" \t\r\n"`. -/
def trimChars (s : List Char) : List Char :=
  ((s.dropWhile isTrimChar).reverse.dropWhile isTrimChar).reverse

/-- `to_upper`: `std::toupper` over every character (ASCII). -/
def listToUpper (s : List Char) : List Char :=
  s.map Char.toUpper

/-- Numeric value of a digit string (the core of `std::stoul` / `std::stoi`
on an all-digit input). -/
def natOfDigits (s : List Char) : Nat :=
  s.foldl (fun acc c => acc * 10 + (c.toNat - 48)) 0

/-! ## The `TYPE` action data model (command_processor.h) -/

/-- `TypeAction::Kind`. -/
inductive TypeActionKind where
  | press
  | down
  | up
  | delayMs
  | delayFrames
deriving DecidableEq, Repr

/-- `textmode::TypeAction`: a kind tag plus the payload fields of the C++
struct (`key`, `delay_ms`, `frames`; unused fields keep their defaults). -/
structure TypeAction where
  kind : TypeActionKind := .press
  key : String := ""
  delayMs : Nat := 0
  frames : Nat := 0
deriving DecidableEq, Repr

/-- `make_key_action`. -/
def makeKeyAction (kind : TypeActionKind) (key : String) : TypeAction :=
  { kind := kind, key := key }

/-- `make_delay_ms_action`. -/
def makeDelayMsAction (delay : Nat) : TypeAction :=
  { kind := .delayMs, delayMs := delay }

/-- `make_delay_frames_action`. -/
def makeDelayFramesAction (frames : Nat) : TypeAction :=
  { kind := .delayFrames, frames := frames }

/-- `textmode::TypeCommandPlan`. -/
structure TypeCommandPlan where
  actions : List TypeAction := []
  requestFrame : Bool := false
deriving DecidableEq, Repr

/-- `is_delay_action` (queued_type_action_sink.cpp). -/
def isDelayKind (kind : TypeActionKind) : Bool :=
  kind = .delayFrames || kind = .delayMs

/-! ## `TYPE` argument tokenizer (`tokenize_type_arguments`) -/

/-- A token of the `TYPE` argument string. -/
structure TypeToken where
  text : List Char
  isQuoted : Bool := false
deriving DecidableEq, Repr

/-- `flush`: emit the accumulated characters (held in reverse) as a token,
unless empty. -/
def flushToken (currentRev : List Char) (quoted : Bool) : List TypeToken :=
  if currentRev = [] then [] else [⟨currentRev.reverse, quoted⟩]

/-- The scanning loop of `tokenize_type_arguments`.  `currentRev` is the
current run accumulated in reverse; `inQuotes` is the quoting state. -/
def tokenizeLoop : Bool → List Char → List Char → List TypeToken
  | true, '\\' :: next :: rest, currentRev =>
      -- backslash escapes the next character verbatim (only when one exists)
      tokenizeLoop true rest (next :: currentRev)
  | true, ch :: rest, currentRev =>
      if ch = '"' then
        flushToken currentRev true ++ tokenizeLoop false rest []
      else
        tokenizeLoop true rest (ch :: currentRev)
  | false, ch :: rest, currentRev =>
      if isSpaceChar ch then
        flushToken currentRev false ++ tokenizeLoop false rest []
      else if ch = '"' then
        flushToken currentRev false ++ tokenizeLoop true rest []
      else
        tokenizeLoop false rest (ch :: currentRev)
  | inQuotes, [], currentRev =>
      -- end of input: an unterminated quoted run still flushes as quoted
      flushToken currentRev inQuotes

/-- `tokenize_type_arguments`. -/
def tokenizeTypeArguments (argument : List Char) : List TypeToken :=
  tokenizeLoop false argument []

/-! ## Character-to-key lowering (`map_character_to_key` etc.) -/

/-- `CharacterMapping`. -/
structure CharacterMapping where
  key : String
  requiresShift : Bool := false
deriving DecidableEq, Repr

/-- `make_letter_mapping`. -/
def makeLetterMapping (ch : Char) : CharacterMapping :=
  ⟨String.singleton ch.toUpper, ch.isUpper⟩

/-- The `symbol_map` table of `map_character_to_key`. -/
def symbolMap : List (Char × CharacterMapping) :=
  [ (' ', ⟨"Space", false⟩),
    ('\n', ⟨"Enter", false⟩),
    ('\r', ⟨"Enter", false⟩),
    ('\t', ⟨"Tab", false⟩),
    ('`', ⟨"Grave", false⟩),
    ('~', ⟨"Grave", true⟩),
    ('-', ⟨"Minus", false⟩),
    ('_', ⟨"Minus", true⟩),
    ('=', ⟨"Equals", false⟩),
    ('+', ⟨"Equals", true⟩),
    ('[', ⟨"LeftBracket", false⟩),
    ('{', ⟨"LeftBracket", true⟩),
    (']', ⟨"RightBracket", false⟩),
    ('}', ⟨"RightBracket", true⟩),
    ('\\', ⟨"Backslash", false⟩),
    ('|', ⟨"Backslash", true⟩),
    (';', ⟨"Semicolon", false⟩),
    (':', ⟨"Semicolon", true⟩),
    ('\'', ⟨"Quote", false⟩),
    ('"', ⟨"Quote", true⟩),
    (',', ⟨"Comma", false⟩),
    ('<', ⟨"Comma", true⟩),
    ('.', ⟨"Period", false⟩),
    ('>', ⟨"Period", true⟩),
    ('/', ⟨"Slash", false⟩),
    ('?', ⟨"Slash", true⟩),
    ('!', ⟨"1", true⟩),
    ('@', ⟨"2", true⟩),
    ('#', ⟨"3", true⟩),
    ('$', ⟨"4", true⟩),
    ('%', ⟨"5", true⟩),
    ('^', ⟨"6", true⟩),
    ('&', ⟨"7", true⟩),
    ('*', ⟨"8", true⟩),
    ('(', ⟨"9", true⟩),
    (')', ⟨"0", true⟩) ]

/-- `map_character_to_key`. -/
def mapCharacterToKey (ch : Char) : Option CharacterMapping :=
  if ch.isAlpha then some (makeLetterMapping ch)
  else if ch.isDigit then some ⟨String.singleton ch, false⟩
  else symbolMap.lookup ch

/-- `append_character_actions`; modelled as the list of actions appended to
the plan (the C++ pushes them onto the `actions` vector). -/
def appendCharacterActions (mapping : CharacterMapping) : List TypeAction :=
  (if mapping.requiresShift then [makeKeyAction .down "Shift"] else []) ++
  [makeKeyAction .press mapping.key] ++
  (if mapping.requiresShift then [makeKeyAction .up "Shift"] else [])

/-- `append_string_actions`, modelled as the list of actions appended for a
quoted string token.  An unmapped character is skipped (a warning is
logged); after a mapped character with more characters following, a
positive `interkey_frames` inserts a `DelayFrames` action. -/
def appendStringActions (text : List Char) (interkeyFrames : Nat) : List TypeAction :=
  match text with
  | [] => []
  | ch :: rest =>
    match mapCharacterToKey ch with
    | none => appendStringActions rest interkeyFrames
    | some mapping =>
        appendCharacterActions mapping ++
        (if rest ≠ [] && interkeyFrames > 0
          then [makeDelayFramesAction interkeyFrames] else []) ++
        appendStringActions rest interkeyFrames

/-! ## Delay-token parsers (`parse_delay_token`, `parse_frames_token`) -/

/-- Upper bound of `unsigned long` on the 64-bit targets the server builds
for; `std::stoul` throws `std::out_of_range` above it, which these parsers
catch and convert to "no value". -/
def ULONG_MAX : Nat := 2 ^ 64 - 1

/-- `parse_delay_token`.  Returns the parsed positive millisecond count (if
any) together with the `case_error` out-parameter. -/
def parseDelayToken (token : List Char) : Option Nat × Bool :=
  if token.length > 2 && "ms".toList.isSuffixOf token then
    let digits := token.take (token.length - 2)
    if digits ≠ [] && digits.all Char.isDigit then
      let value := natOfDigits digits
      -- std::stoul throws std::out_of_range above ULONG_MAX; caught → nullopt
      if value > ULONG_MAX then (none, false)
      else if value = 0 then (none, false)
      else (some value, false)
    else (none, false)
  else
    let upper := listToUpper token
    if upper.length > 2 && "MS".toList.isSuffixOf upper then
      (none, true)
    else
      (none, false)

/-- The `parse_digits` helper of `parse_frames_token`: positive values that
fit a `uint32_t` (larger values, including the `std::stoul` overflow throw
which is caught, yield no value). -/
def parseFrameDigits (digits : List Char) : Option Nat :=
  if digits = [] || !digits.all Char.isDigit then none
  else
    let value := natOfDigits digits
    if value = 0 || value > 4294967295 then none else some value

/-- `parse_frames_token`.  Returns the parsed frame count, the `case_error`
out-parameter, and the `expected` canonical spelling out-parameter. -/
def parseFramesToken (token : List Char) : Option Nat × Bool × List Char :=
  if token = [] then (none, false, [])
  else if token.length > 6 && "frames".toList.isSuffixOf token then
    (parseFrameDigits (token.take (token.length - 6)), false, [])
  else if token.length > 5 && "frame".toList.isSuffixOf token then
    (parseFrameDigits (token.take (token.length - 5)), false, [])
  else
    let upper := listToUpper token
    let (caseError1, expected1) :=
      if upper.length > 6 && "FRAMES".toList.isSuffixOf upper then
        (true, token.take (token.length - 6) ++ "frames".toList)
      else (false, ([] : List Char))
    -- the singular check is not an else-if in the source: it may overwrite
    let (caseError, expected) :=
      if upper.length > 5 && "FRAME".toList.isSuffixOf upper then
        (true, token.take (token.length - 5) ++ "frame".toList)
      else (caseError1, expected1)
    (none, caseError, expected)

/-! ## Key name table (keyboard_processor.cpp)

The `KBD_KEYS` enum lives in `hardware/input/keyboard.h`, outside this
repository; only the distinctness of its tags and the consecutive
`KBD_f1 .. KBD_f12` block used by `map_f_key` are observable here, so the
tags are modelled as placeholder `Nat` codes (aliases share a code exactly
as in the source table). -/

/-- Placeholder tag of `KBD_f1`; `F1..F12` map to `KBD_f1 + 0 .. + 11`. -/
def KBD_f1 : Nat := 100

/-- Placeholder tags of `KBD_0 .. KBD_9`. -/
def kbdDigitCode (c : Char) : Nat := 120 + (c.toNat - 48)

/-- Placeholder tags of `KBD_a .. KBD_z` (reached from `A`..`Z`). -/
def kbdLetterCode (c : Char) : Nat := 130 + (c.toNat - 65)

/-- `get_key_map`: the canonical-name table (aliases share a tag). -/
def getKeyMap : List (String × Nat) :=
  [ ("Esc", 1), ("Escape", 1),
    ("Tab", 2),
    ("Backspace", 3), ("Bksp", 3),
    ("Enter", 4), ("Return", 4),
    ("Space", 5), ("Spacebar", 5),
    ("LeftAlt", 6), ("Alt", 6),
    ("RightAlt", 7),
    ("LeftCtrl", 8), ("Ctrl", 8), ("Control", 8),
    ("RightCtrl", 9),
    ("LeftShift", 10), ("Shift", 10),
    ("RightShift", 11),
    ("LeftGui", 12), ("Gui", 12), ("Win", 12), ("Windows", 12),
    ("RightGui", 13),
    ("CapsLock", 14),
    ("NumLock", 15),
    ("ScrollLock", 16),
    ("Grave", 17), ("Backquote", 17), ("Backtick", 17),
    ("Minus", 18), ("Hyphen", 18),
    ("Equals", 19), ("Plus", 19),
    ("Backslash", 20),
    ("LeftBracket", 21), ("LBracket", 21), ("OpenBracket", 21),
    ("RightBracket", 22), ("RBracket", 22), ("CloseBracket", 22),
    ("Semicolon", 23), ("Colon", 23),
    ("Apostrophe", 24), ("Quote", 24),
    ("Oem102", 25), ("LessGreater", 25),
    ("Period", 26), ("Dot", 26),
    ("Comma", 27),
    ("Slash", 28), ("ForwardSlash", 28),
    ("Abnt1", 29),
    ("PrintScreen", 30), ("PrtSc", 30), ("SysRq", 30),
    ("Pause", 31), ("Break", 31),
    ("Insert", 32), ("Ins", 32),
    ("Delete", 33), ("Del", 33),
    ("Home", 34),
    ("End", 35),
    ("PageUp", 36), ("PgUp", 36),
    ("PageDown", 37), ("PgDn", 37),
    ("Left", 38), ("LeftArrow", 38),
    ("Up", 39), ("UpArrow", 39),
    ("Down", 40), ("DownArrow", 40),
    ("Right", 41), ("RightArrow", 41),
    ("Numpad0", 50), ("Numpad1", 51), ("Numpad2", 52), ("Numpad3", 53),
    ("Numpad4", 54), ("Numpad5", 55), ("Numpad6", 56), ("Numpad7", 57),
    ("Numpad8", 58), ("Numpad9", 59),
    ("NumpadDivide", 60),
    ("NumpadMultiply", 61),
    ("NumpadMinus", 62),
    ("NumpadPlus", 63),
    ("NumpadEnter", 64),
    ("NumpadPeriod", 65), ("NumpadDecimal", 65) ]

/-- `map_single_character`: digits `0`-`9` and uppercase letters `A`-`Z`. -/
def mapSingleCharacter (ch : Char) : Option Nat :=
  if '0' ≤ ch && ch ≤ '9' then some (kbdDigitCode ch)
  else if 'A' ≤ ch && ch ≤ 'Z' then some (kbdLetterCode ch)
  else none

/-- `map_f_key`.  The digit string is converted with `std::stoi`, which is
NOT wrapped in a try/catch: a value above `INT_MAX` throws
`std::out_of_range`, modelled as `Except.error`. -/
def mapFKeyE (name : List Char) : Except String (Option Nat) :=
  if name.length < 2 || name.head? ≠ some 'F' then .ok none
  else
    let numberPart := name.drop 1
    if !numberPart.all Char.isDigit then .ok none
    else
      let value := natOfDigits numberPart
      if value > 2147483647 then
        .error "std::out_of_range thrown by std::stoi in map_f_key"
      else if value < 1 || value > 12 then .ok none
      else .ok (some (KBD_f1 + (value - 1)))

/-- `KeyboardCommandProcessor::ParseKeyName`.  Propagates the `map_f_key`
exception. -/
def ParseKeyNameE (name : List Char) : Except String (Option Nat) :=
  if name = [] then .ok none
  else if name.length = 1 then .ok (mapSingleCharacter (name.headD ' '))
  else do
    let fKey ← mapFKeyE name
    match fKey with
    | some key => pure (some key)
    | none => pure (getKeyMap.lookup (String.mk name))

/-- Lexicographic comparison of character lists: the semantics of
`std::string::operator<` (byte-wise; the names compared are ASCII, where
byte order and code-point order agree). -/
def charListLt : List Char → List Char → Bool
  | [], [] => false
  | [], _ :: _ => true
  | _ :: _, [] => false
  | a :: as, b :: bs =>
      if a < b then true else if b < a then false else charListLt as bs

/-- `std::string` `operator<`. -/
def stringLt (a b : String) : Bool :=
  charListLt a.toList b.toList

/-- The strict ordering used to sort `GetKeyNames`: length descending, then
lexicographic ascending. -/
def keyNameBefore (a b : String) : Bool :=
  if a.length ≠ b.length then b.length < a.length else stringLt a b

/-- Insertion step for sorting with `keyNameBefore` (the `std::sort` in
`GetKeyNames`; its comparator is a total order on the distinct names, so the
sorted result is order-deterministic). -/
def insertKeyName (x : String) : List String → List String
  | [] => [x]
  | y :: rest =>
      if keyNameBefore y x then y :: insertKeyName x rest else x :: y :: rest

/-- Insertion sort with `keyNameBefore`. -/
def sortKeyNames (names : List String) : List String :=
  names.foldr insertKeyName []

/-- `std::unique` + `erase`: collapse adjacent duplicates. -/
def uniqueAdjacent : List String → List String
  | [] => []
  | [x] => [x]
  | x :: y :: rest =>
      if x = y then uniqueAdjacent (y :: rest)
      else x :: uniqueAdjacent (y :: rest)

/-- `KeyboardCommandProcessor::GetKeyNames`: every map name, `F1`..`F12`,
`A`..`Z` and `0`..`9`, sorted by length descending then lexicographically,
with duplicates removed. -/
def GetKeyNames : List String :=
  uniqueAdjacent (sortKeyNames
    (getKeyMap.map Prod.fst ++
     ((List.range 12).map fun f => "F" ++ toString (f + 1)) ++
     ((List.range 26).map fun i => String.singleton (Char.ofNat (65 + i))) ++
     ((List.range 10).map fun i => String.singleton (Char.ofNat (48 + i)))))

/-- ASCII upper-casing of a `String` (`to_upper` at the `String` level). -/
def toUpperStr (s : String) : String :=
  String.mk (listToUpper s.toList)

/-- `key_case_lookup`: upper-cased name → canonical spelling.  The C++
`unordered_map::emplace` keeps the first insertion; an association-list
lookup over the names in order has the same first-wins semantics. -/
def keyCaseLookup : List (String × String) :=
  GetKeyNames.map fun name => (toUpperStr name, name)

/-- `suggest_key_token`: the canonical spelling when the token matches a key
name case-insensitively but not exactly. -/
def suggestKeyToken (token : List Char) : Option String :=
  match keyCaseLookup.lookup (String.mk (listToUpper token)) with
  | some canonical =>
      if canonical ≠ String.mk token then some canonical else none
  | none => none

/-! ## `append_key_token` and the `TYPE` token classifier -/

/-- `append_key_token`, modelled as the (at most one) action it appends.
`.ok none` means the token was rejected (warning logged, token dropped);
the `map_f_key` exception propagates. -/
def appendKeyTokenE (token : List Char) : Except String (Option TypeAction) :=
  if token = [] then .ok none
  else
    let canonicalBackslash := fun (name : List Char) =>
      if name = ['\\'] then "Backslash".toList else name
    let directCandidate := canonicalBackslash token
    do
    let direct ← ParseKeyNameE directCandidate
    if direct.isSome then
      pure (some (makeKeyAction .press (String.mk directCandidate)))
    else
      let upper := listToUpper token
      -- suffix stripping: exact `Down`/`Up` first, then case-insensitive
      let (requestDown, requestUp, suffixCaseError, base) :=
        if token.length > 4 && "Down".toList.isSuffixOf token then
          (true, false, false, token.take (token.length - 4))
        else if token.length > 2 && "Up".toList.isSuffixOf token then
          (false, true, false, token.take (token.length - 2))
        else if upper.length > 4 && "DOWN".toList.isSuffixOf upper then
          (true, false, true, token.take (token.length - 4))
        else if upper.length > 2 && "UP".toList.isSuffixOf upper then
          (false, true, true, token.take (token.length - 2))
        else (false, false, false, token)
      if base = [] then pure none
      else
        let base := canonicalBackslash base
        match suggestKeyToken base with
        | some _ => pure none      -- case suggestion warning, token dropped
        | none =>
          if suffixCaseError then pure none  -- suffix-case warning, dropped
          else do
            let parsed ← ParseKeyNameE base
            if parsed.isSome then
              pure (some (makeKeyAction
                (if requestDown then .down else if requestUp then .up else .press)
                (String.mk base)))
            else
              pure none            -- unrecognised token warning, dropped

/-- One iteration of the token loop of `CommandProcessor::HandleTypeCommand`:
classify a token and extend the plan. -/
def classifyTypeToken (macroInterkeyFrames : Nat) (plan : TypeCommandPlan)
    (token : TypeToken) : Except String TypeCommandPlan :=
  if token.text = [] && !token.isQuoted then .ok plan
  else if token.isQuoted then
    .ok { plan with
          actions := plan.actions ++
            appendStringActions token.text macroInterkeyFrames }
  else
    let tokenUpper := listToUpper token.text
    if token.text = "GET".toList || token.text = "VIEW".toList then
      .ok { plan with requestFrame := true }
    else if tokenUpper = "GET".toList || tokenUpper = "VIEW".toList then
      -- case warning logged, but the frame request is still honoured
      .ok { plan with requestFrame := true }
    else
      match parseDelayToken token.text with
      | (some delay, _) =>
          .ok { plan with actions := plan.actions ++ [makeDelayMsAction delay] }
      | (none, true) => .ok plan   -- `MS` case warning, token dropped
      | (none, false) =>
        match parseFramesToken token.text with
        | (some frames, _, _) =>
            .ok { plan with
                  actions := plan.actions ++ [makeDelayFramesAction frames] }
        | (none, framesCaseError, framesExpected) =>
          if framesCaseError && framesExpected ≠ [] then
            .ok plan               -- `FRAMES` case warning, token dropped
          else do
            let appended ← appendKeyTokenE token.text
            match appended with
            | some action => pure { plan with actions := plan.actions ++ [action] }
            | none => pure plan    -- unrecognised token warning, dropped

/-- The plan-building part of `HandleTypeCommand`: tokenize, classify every
token, then append the trailing settling delay when a frame is requested
and the last action is not already a delay. -/
def compileTypePlanE (macroInterkeyFrames : Nat) (argument : List Char) :
    Except String TypeCommandPlan := do
  let tokens := tokenizeTypeArguments argument
  let plan ← tokens.foldlM (classifyTypeToken macroInterkeyFrames)
    ({} : TypeCommandPlan)
  if plan.requestFrame && plan.actions ≠ [] then
    match plan.actions.getLast? with
    | some lastAction =>
      if lastAction.kind ≠ .delayMs && lastAction.kind ≠ .delayFrames then
        let framesToWait := if macroInterkeyFrames > 0 then macroInterkeyFrames else 1
        pure { plan with actions := plan.actions ++ [makeDelayFramesAction framesToWait] }
      else
        pure plan
    | none => pure plan
  else
    pure plan

/-! ## Command dispatcher (command_processor.cpp) -/

/-- `textmode::CommandResponse`. -/
structure CommandResponse where
  ok : Bool := false
  payload : String := ""
  deferred : Bool := false
  deferredId : Nat := 0
deriving DecidableEq, Repr

/-- `textmode::ServiceResult` (service.h). -/
structure ServiceResult where
  success : Bool := false
  frame : String := ""
  error : String := ""
deriving DecidableEq, Repr

/-- The dispatcher's mutable counters and exit flag. -/
structure ProcState where
  requests : Nat := 0
  success : Nat := 0
  failures : Nat := 0
  exitRequested : Bool := false
deriving DecidableEq, Repr

/-- `show_spaces`: each ASCII space becomes the UTF-8 middle dot `U+00B7`. -/
def showSpaces (frame : String) : String :=
  String.mk (frame.toList.flatMap fun ch =>
    if ch = ' ' then [Char.ofNat 0xB7] else [ch])

/-- Insertion step of a lexicographic string sort (`std::sort` over
`std::string` keys; all key display names are ASCII, where byte order and
code-point order agree). -/
def insertStringLe (x : String) : List String → List String
  | [] => [x]
  | y :: rest => if stringLt y x then y :: insertStringLe x rest else x :: y :: rest

/-- Lexicographic string sort. -/
def sortStrings (names : List String) : List String :=
  names.foldr insertStringLe []

/-- Join strings with a separator character (the CSV building loops). -/
def joinWithComma : List String → String
  | [] => ""
  | [x] => x
  | x :: rest => x ++ "," ++ joinWithComma rest

/-- `send_keyboard_command` / the key cases of
`ImmediateTypeActionSink::Execute`: the keyboard-handler command strings
issued for a plan, in order (delays sleep and issue nothing).  With no
keyboard handler wired nothing is issued. -/
def immediateInjectorCommands (kbdPresent : Bool) (actions : List TypeAction) :
    List String :=
  if !kbdPresent then []
  else actions.filterMap fun action =>
    match action.kind with
    | .press => some ("PRESS " ++ action.key)
    | .down => some ("DOWN " ++ action.key)
    | .up => some ("UP " ++ action.key)
    | .delayMs => none
    | .delayFrames => none

/-- `ImmediateTypeActionSink::Execute`: the response, together with the
keyboard commands issued.  `providerPresent`/`providerResult` model the
`FrameProvider` argument. -/
def immediateExecute (kbdPresent providerPresent : Bool)
    (providerResult : ServiceResult) (plan : TypeCommandPlan) :
    CommandResponse × List String :=
  let commands := immediateInjectorCommands kbdPresent plan.actions
  if !plan.requestFrame then ({ ok := true, payload := "OK\n" }, commands)
  else if !providerPresent then
    ({ ok := false, payload := "ERR service unavailable\n" }, commands)
  else if !providerResult.success then
    ({ ok := false, payload := "ERR " ++ providerResult.error ++ "\n" }, commands)
  else
    ({ ok := true, payload := providerResult.frame }, commands)

/-- The dispatcher's wiring: the collaborators passed to the constructor and
the setters' configuration flags.  `sinkExec` is the behaviour of the
configured `m_type_sink` (`Execute`'s response plus any keyboard commands it
issues synchronously); the constructor default is the immediate sink.
Defaults mirror command_processor.h. -/
structure ProcConfig where
  providerPresent : Bool := true
  providerResult : ServiceResult := {}
  keyboardPresent : Bool := true
  keysDownProvider : Option (List String) := some []
  macroInterkeyFrames : Nat := 0
  sinkRequiresClient : Bool := false
  queueNonFrameCommands : Bool := true
  allowDeferredFrames : Bool := true
  sinkExec : TypeCommandPlan → Nat → CommandResponse × List String :=
    fun plan _ => immediateExecute true true {} plan

/-- What `HandleTypeCommand` did: final counters, the response, the compiled
plan, whether the configured sink's `Execute` received the plan
(`use_queue`), and the keyboard commands issued synchronously. -/
structure TypeOutcome where
  state : ProcState
  response : CommandResponse
  plan : TypeCommandPlan
  usedQueue : Bool
  injector : List String
deriving Repr

/-- `CommandProcessor::HandleTypeCommand`.  `client` is
`origin.client` (`0` is the null `ClientHandle`). -/
def handleTypeCommandE (cfg : ProcConfig) (st : ProcState)
    (argument : List Char) (client : Nat) : Except String TypeOutcome :=
  let st := { st with requests := st.requests + 1 }
  if !cfg.keyboardPresent then
    pure { state := { st with failures := st.failures + 1 },
           response := { ok := false, payload := "ERR keyboard unavailable\n" },
           plan := {}, usedQueue := false, injector := [] }
  else
    match compileTypePlanE cfg.macroInterkeyFrames argument with
    | .error e => .error e
    | .ok plan =>
    if plan.actions = [] then
      if !plan.requestFrame then
        pure { state := { st with success := st.success + 1 },
               response := { ok := true, payload := "OK\n" },
               plan := plan, usedQueue := false, injector := [] }
      else if !cfg.providerPresent then
        pure { state := { st with failures := st.failures + 1 },
               response := { ok := false, payload := "ERR service unavailable\n" },
               plan := plan, usedQueue := false, injector := [] }
      else if !cfg.providerResult.success then
        pure { state := { st with failures := st.failures + 1 },
               response := { ok := false,
                             payload := "ERR " ++ cfg.providerResult.error ++ "\n" },
               plan := plan, usedQueue := false, injector := [] }
      else
        pure { state := { st with success := st.success + 1 },
               response := { ok := true, payload := cfg.providerResult.frame },
               plan := plan, usedQueue := false, injector := [] }
    else
      -- m_type_sink is never null (the constructor and SetTypeActionSink
      -- install an immediate sink), so use_queue starts true
      let useQueue := !(client = 0 && cfg.sinkRequiresClient) &&
        (plan.requestFrame || cfg.queueNonFrameCommands) &&
        cfg.allowDeferredFrames
      let (response, injector) :=
        if useQueue then cfg.sinkExec plan client
        else immediateExecute cfg.keyboardPresent cfg.providerPresent
          cfg.providerResult plan
      let st :=
        if !response.deferred then
          if response.ok then { st with success := st.success + 1 }
          else { st with failures := st.failures + 1 }
        else st
      pure { state := st, response := response, plan := plan,
             usedQueue := useQueue, injector := injector }

/-- `suggest_command`: the canonical verb when the input differs only in
case from `TYPE`/`GET`/`VIEW`/`STATS`/`EXIT`. -/
def suggestCommand (verb : List Char) : Option (List Char) :=
  let upper := listToUpper verb
  if (upper = "TYPE".toList || upper = "GET".toList || upper = "VIEW".toList ||
      upper = "STATS".toList || upper = "EXIT".toList) && upper ≠ verb then
    some upper
  else none

/-- `CommandProcessor::HandleCommandInternal`.  Returns the updated counters
and the response; C++ exceptions escaping the dispatcher are `Except.error`. -/
def handleCommandInternalE (cfg : ProcConfig) (st : ProcState)
    (rawCommand : String) (client : Nat) :
    Except String (ProcState × CommandResponse) := do
  let trimmed := trimChars rawCommand.toList
  if trimmed = [] then
    pure (st, { ok := false, payload := "ERR empty command\n" })
  else
    let verb := trimmed.takeWhile (· ≠ ' ')
    let verbUpper := listToUpper verb
    let argument :=
      if trimmed.any (· = ' ') then
        trimChars ((trimmed.dropWhile (· ≠ ' ')).drop 1)
      else []
    if (suggestCommand verb).isSome then
      pure (st, { ok := false, payload := "ERR commands are case-sensitive\n" })
    else if verbUpper = "STATS".toList then
      let joined :=
        match cfg.keysDownProvider with
        | some keys => joinWithComma (sortStrings keys)
        | none => ""
      pure (st, { ok := true,
                  payload := "requests=" ++ toString st.requests ++
                    " success=" ++ toString st.success ++
                    " failures=" ++ toString st.failures ++
                    " keys_down=" ++ joined ++ "\n" })
    else if verbUpper = "EXIT".toList then
      pure ({ st with
                requests := st.requests + 1
                success := st.success + 1
                exitRequested := true },
            { ok := true, payload := "OK\n" })
    else if verbUpper = "GET".toList || verbUpper = "VIEW".toList then
      if !cfg.providerPresent then
        -- early return: no counter is touched
        pure (st, { ok := false, payload := "ERR service unavailable\n" })
      else
        let st := { st with requests := st.requests + 1 }
        let showspc :=
          if argument ≠ [] then
            if argument = "SHOWSPC".toList then true
            else if listToUpper argument = "SHOWSPC".toList then true
            else false
          else false
        if !cfg.providerResult.success then
          pure ({ st with failures := st.failures + 1 },
                { ok := false,
                  payload := "ERR " ++ cfg.providerResult.error ++ "\n" })
        else
          pure ({ st with success := st.success + 1 },
                { ok := true,
                  payload := if showspc then showSpaces cfg.providerResult.frame
                             else cfg.providerResult.frame })
    else if verbUpper = "TYPE".toList then
      match handleTypeCommandE cfg st argument client with
      | .error e => .error e
      | .ok outcome => pure (outcome.state, outcome.response)
    else
      pure (st, { ok := false, payload := "ERR unknown command\n" })

/-! ## ANSI frame encoder (encoder.cpp) and frame service (service.cpp) -/

/-- A text cell of the snapshot (snapshot.h); `attr` is the `attribute`
byte. -/
structure TextCell where
  character : Nat := 0
  attr : Nat := 0
deriving DecidableEq, Repr

/-- The cursor part of a snapshot. -/
structure CursorState where
  enabled : Bool := false
  visible : Bool := false
  row : Nat := 0
  column : Nat := 0
deriving DecidableEq, Repr

/-- `textmode::Snapshot` (snapshot.h). -/
structure Snapshot where
  columns : Nat := 0
  rows : Nat := 0
  cursor : CursorState := {}
  cells : List TextCell := []
deriving DecidableEq, Repr

/-- `textmode::EncodingOptions` (encoder.h). -/
structure EncodingOptions where
  showAttributes : Bool := true
  sentinel : String := String.singleton (Char.ofNat 0x1F5B5)
  keysDown : List String := []
deriving DecidableEq, Repr

/-- `FgColorCodes`. -/
def FgColorCodes : List Nat :=
  [30, 34, 32, 36, 31, 35, 33, 37, 90, 94, 92, 96, 91, 95, 93, 97]

/-- `FgIsBright`. -/
def FgIsBright : List Bool :=
  [false, false, false, false, false, false, false, false,
   true, true, true, true, true, true, true, true]

/-- `BgColorCodes`. -/
def BgColorCodes : List Nat :=
  [40, 44, 42, 46, 41, 45, 43, 47]

/-- `build_sgr`: the SGR escape for an attribute byte. -/
def buildSgr (attr : Nat) : String :=
  let fgIndex := attr % 16
  let bgIndex := (attr / 16) % 8
  let codes :=
    [0] ++ (if FgIsBright.getD fgIndex false then [1] else []) ++
    [FgColorCodes.getD fgIndex 0] ++ [BgColorCodes.getD bgIndex 0] ++
    (if (attr / 128) % 2 = 1 then [5] else [])
  "\x1B[" ++ joinWithSemicolon (codes.map toString) ++ "m"
where
  joinWithSemicolon : List String → String
    | [] => ""
    | [x] => x
    | x :: rest => x ++ ";" ++ joinWithSemicolon rest

/-- `ensure_sentinel`. -/
def ensureSentinel (options : EncodingOptions) : String :=
  if options.sentinel = "" then String.singleton (Char.ofNat 0x1F5B5)
  else options.sentinel

/-- One row of the payload (the inner column loop), threading the
previous-attribute state.  `toUtf8` abstracts the external `dos_to_utf8`
conversion (misc/unicode, outside this repository). -/
def renderRow (toUtf8 : Nat → String) (showAttr : Bool)
    (cells : List TextCell) (prev : Option Nat) : String × Option Nat :=
  cells.foldl
    (fun acc cell =>
      let sgr :=
        if showAttr && acc.2 ≠ some cell.attr then buildSgr cell.attr else ""
      (acc.1 ++ sgr ++ toUtf8 cell.character,
       if showAttr then some cell.attr else acc.2))
    ("", prev)

/-- The row loop of `BuildAnsiFrame`: per row, render the cells, then a
reset (when attributes are shown), a newline, and — between rows — another
reset with the previous-attribute tracking cleared. -/
def renderRows (toUtf8 : Nat → String) (showAttr : Bool) (cols : Nat)
    (prev : Option Nat) : List (List TextCell) → String
  | [] => ""
  | rowCells :: rest =>
    let (body, prevAfter) := renderRow toUtf8 showAttr rowCells prev
    body ++ (if showAttr then "\x1B[0m" else "") ++ "\n" ++
    (if rest = [] then ""
     else (if showAttr then "\x1B[0m" else "") ++
          renderRows toUtf8 showAttr cols
            (if showAttr then none else prevAfter) rest)

/-- Split the flat cell list into `rows` rows of `cols` cells
(`snapshot.cells[row * cols + col]`). -/
def snapshotRows (snapshot : Snapshot) : List (List TextCell) :=
  (List.range snapshot.rows).map fun row =>
    ((snapshot.cells.drop (row * snapshot.columns)).take snapshot.columns)

/-- `BuildAnsiFrame`: sentinel-prefixed META lines, the `PAYLOAD`
separator, then the rendered rows.  (No `keys_down` META line is emitted;
`options.keysDown` is unused by the source function.) -/
def BuildAnsiFrame (toUtf8 : Nat → String) (snapshot : Snapshot)
    (options : EncodingOptions) : String :=
  let sentinel := ensureSentinel options
  sentinel ++ "META cols=" ++ toString snapshot.columns ++ "\n" ++
  sentinel ++ "META rows=" ++ toString snapshot.rows ++ "\n" ++
  (if snapshot.cursor.enabled then
    sentinel ++ "META cursor=" ++ toString snapshot.cursor.row ++ "," ++
      toString snapshot.cursor.column ++ " visible=" ++
      (if snapshot.cursor.visible then "1" else "0") ++ "\n"
   else
    sentinel ++ "META cursor=disabled\n") ++
  sentinel ++ "META attributes=" ++
    (if options.showAttributes then "show" else "hide") ++ "\n" ++
  sentinel ++ "PAYLOAD\n" ++
  (if options.showAttributes then "\x1B[0m" else "") ++
  renderRows toUtf8 options.showAttributes snapshot.columns none
    (snapshotRows snapshot)

/-- `textmode::ServiceConfig` (service.h). -/
structure ServiceConfig where
  enable : Bool := false
  port : Nat := 6000
  showAttributes : Bool := true
  sentinel : String := ""
  closeAfterResponse : Bool := false
  macroInterkeyFrames : Nat := 1
  interTokenFrameDelay : Nat := 1
deriving DecidableEq, Repr

/-- `TextModeService::GetFrame`.  The VGA mode check and the snapshot
capture touch the host emulator (outside this repository) and are
abstracted as the `vgaTextMode` and `snapshot` parameters. -/
def TextModeServiceGetFrame (toUtf8 : Nat → String) (vgaTextMode : Bool)
    (snapshot : Option Snapshot) (config : ServiceConfig)
    (keysDown : List String) : ServiceResult :=
  if !config.enable then
    { success := false, error := "text-mode server disabled" }
  else if !vgaTextMode then
    { success := false, error := "video adapter not in text mode" }
  else
    match snapshot with
    | none => { success := false, error := "unable to capture text snapshot" }
    | some snap =>
      let encoding : EncodingOptions :=
        { showAttributes := config.showAttributes
          sentinel := config.sentinel
          keysDown := sortStrings keysDown }
      { success := true, frame := BuildAnsiFrame toUtf8 snap encoding }

/-- Identity conversion for plain ASCII cells (what `dos_to_utf8` does on
printable ASCII); used to instantiate the abstract `toUtf8` parameter on
concrete inputs. -/
def asciiToUtf8 (code : Nat) : String :=
  String.singleton (Char.ofNat code)

/-- `needle.isInfixOf hay` at the character-list level: does the byte
sequence occur anywhere in the string? -/
def listHasInfix (needle : List Char) : List Char → Bool
  | [] => needle = []
  | c :: rest => needle.isPrefixOf (c :: rest) || listHasInfix needle rest

/-! ## Deferred action sink (queued_type_action_sink.cpp)

The sink's collaborators (keyboard handler, frame provider, the server's
send/close hooks and the dispatcher's completion callback) are abstracted
by `SinkEnv`; every invocation of one of them is recorded as a `SinkEvent`
tagged with the id and originating client of the pending request that
caused it (`reqId = 0` for the inline empty-plan path of `Execute`, which
runs before any request is queued). -/

/-- `QueuedTypeActionSink::PendingRequest`. -/
structure PendingRequest where
  id : Nat
  client : Nat
  actions : List TypeAction
  requestFrame : Bool
  nextAction : Nat := 0
  framesRemaining : Nat := 0
  resumeAt : Option Nat := none
  sawKeyAction : Bool := false
  finalFrameWaitInserted : Bool := false
  notifyCompletion : Bool := false
  sendResponse : Bool := false
  responsePayload : String := ""
deriving DecidableEq, Repr

/-- The sink's own state (`m_next_id` is a `uint64_t`). -/
structure SinkState where
  nextId : Nat := 1
  pending : List PendingRequest := []
  closeAfterResponse : Bool := false
  tokenFrameSpacing : Nat := 0
deriving DecidableEq, Repr

/-- The abstracted collaborators: presence flags for the `std::function`
null checks, the frame provider's result, and whether the server's send
hook reports success. -/
structure SinkEnv where
  kbdPresent : Bool := true
  sendPresent : Bool := true
  closePresent : Bool := true
  completePresent : Bool := true
  frameProviderPresent : Bool := true
  frameResult : ServiceResult := {}
  sendOk : Bool := true
deriving DecidableEq, Repr

/-- An observable collaborator invocation. -/
inductive SinkEvent where
  | key (reqId client : Nat) (command : String)
  | frameRead (reqId client : Nat)
  | send (reqId client : Nat) (payload : String)
  | close (client : Nat)
  | complete (reqId client : Nat) (ok : Bool)
deriving DecidableEq, Repr

/-- The client an event acts for (the `close` hook receives only the
client; all others act for the request's origin). -/
def SinkEvent.clientOf : SinkEvent → Nat
  | .key _ c _ => c
  | .frameRead _ c => c
  | .send _ c _ => c
  | .close c => c
  | .complete _ c _ => c

/-- The pending-request id an event is attributed to (`close` is keyed by
client only). -/
def SinkEvent.reqIdOf : SinkEvent → Option Nat
  | .key i _ _ => some i
  | .frameRead i _ => some i
  | .send i _ _ => some i
  | .close _ => none
  | .complete i _ _ => some i

/-- Is the event a keyboard (key-injection) command? -/
def SinkEvent.isKey : SinkEvent → Bool
  | .key _ _ _ => true
  | _ => false

/-- `uint64_t` modulus for `m_next_id++`. -/
def UINT64_MOD : Nat := 2 ^ 64

/-- `QueuedTypeActionSink::Execute`: empty plans are served inline;
otherwise a `PendingRequest` is enqueued and the response is deferred when
the plan requests a frame or `close_after_response` is set. -/
def SinkExecute (env : SinkEnv) (plan : TypeCommandPlan) (client : Nat)
    (s : SinkState) : SinkState × CommandResponse × List SinkEvent :=
  if plan.actions = [] then
    if !plan.requestFrame then
      (s, { ok := true, payload := "OK\n" }, [])
    else if !env.frameProviderPresent then
      (s, { ok := false, payload := "ERR service unavailable\n" },
       if env.completePresent then [.complete 0 client false] else [])
    else
      let result := env.frameResult
      let completeEvents :=
        if env.completePresent then [.complete 0 client result.success] else []
      if !result.success then
        (s, { ok := false, payload := "ERR " ++ result.error ++ "\n" },
         [.frameRead 0 client] ++ completeEvents)
      else
        (s, { ok := true, payload := result.frame },
         [.frameRead 0 client] ++ completeEvents)
  else
    let id := s.nextId
    let deferResponse := plan.requestFrame || s.closeAfterResponse
    let request : PendingRequest :=
      { id := id
        client := client
        actions := plan.actions
        requestFrame := plan.requestFrame
        notifyCompletion := deferResponse
        sendResponse := deferResponse && !plan.requestFrame
        responsePayload :=
          if deferResponse && !plan.requestFrame then "OK\n" else "" }
    let s' := { s with
                 nextId := (s.nextId + 1) % UINT64_MOD
                 pending := s.pending ++ [request] }
    if deferResponse then
      (s', { ok := true, payload := "", deferred := true, deferredId := id }, [])
    else
      (s', { ok := true, payload := "OK\n" }, [])

/-- Result of the inner action loop of `Poll` on the remaining actions:
how many actions were consumed, the (at most one) keyboard command issued,
whether a `Press` was seen, and the delay state it installed. -/
structure InnerResult where
  consumed : Nat := 0
  keyCommand : Option String := none
  pressSeen : Bool := false
  framesSet : Nat := 0
  resumeSet : Option Nat := none
  advanced : Bool := false
deriving DecidableEq, Repr

/-- The inner `while` of `Poll`: skip zero delays, then process exactly one
effective action (a key action — dispatched, possibly installing the
inter-token frame spacing — or a delay installing its wait) and stop. -/
def runInner (env : SinkEnv) (now spacing : Nat) :
    List TypeAction → InnerResult
  | [] => {}
  | action :: rest =>
    if action.kind = .delayFrames && action.frames = 0 then
      let r := runInner env now spacing rest
      { r with consumed := r.consumed + 1, advanced := true }
    else if action.kind = .delayMs && action.delayMs = 0 then
      let r := runInner env now spacing rest
      { r with consumed := r.consumed + 1, advanced := true }
    else
      match action.kind with
      | .press =>
          let nextIsDelay :=
            match rest.head? with
            | some b => isDelayKind b.kind
            | none => false
          { consumed := 1
            keyCommand := if env.kbdPresent then some ("PRESS " ++ action.key) else none
            pressSeen := true
            framesSet := if !nextIsDelay && spacing > 0 then spacing else 0
            advanced := true }
      | .down =>
          let nextIsDelay :=
            match rest.head? with
            | some b => isDelayKind b.kind
            | none => false
          { consumed := 1
            keyCommand := if env.kbdPresent then some ("DOWN " ++ action.key) else none
            framesSet := if !nextIsDelay && spacing > 0 then spacing else 0
            advanced := true }
      | .up =>
          let nextIsDelay :=
            match rest.head? with
            | some b => isDelayKind b.kind
            | none => false
          { consumed := 1
            keyCommand := if env.kbdPresent then some ("UP " ++ action.key) else none
            framesSet := if !nextIsDelay && spacing > 0 then spacing else 0
            advanced := true }
      | .delayMs =>
          { consumed := 1, resumeSet := some (now + action.delayMs), advanced := true }
      | .delayFrames =>
          { consumed := 1, framesSet := action.frames, advanced := true }

/-- The completion block of `Poll`: deliver the frame or the stored `OK`
response, optionally close the connection, and report success. -/
def completeRequest (env : SinkEnv) (closeAfterResponse : Bool)
    (r : PendingRequest) : Bool × List SinkEvent :=
  if r.requestFrame then
    let (ok₀, payload, events₀) :=
      if !env.frameProviderPresent then
        (false, "ERR service unavailable\n", ([] : List SinkEvent))
      else if !env.frameResult.success then
        (false, "ERR " ++ env.frameResult.error ++ "\n",
         [SinkEvent.frameRead r.id r.client])
      else
        (true, env.frameResult.frame, [SinkEvent.frameRead r.id r.client])
    let (ok₁, events₁) :=
      if env.sendPresent then
        (ok₀ && env.sendOk, events₀ ++ [SinkEvent.send r.id r.client payload])
      else (ok₀, events₀)
    (ok₁, events₁ ++
      (if closeAfterResponse && env.closePresent then [SinkEvent.close r.client] else []))
  else if r.sendResponse then
    let (ok₁, events₁) :=
      if env.sendPresent then
        (env.sendOk, [SinkEvent.send r.id r.client r.responsePayload])
      else (true, ([] : List SinkEvent))
    (ok₁, events₁ ++
      (if closeAfterResponse && env.closePresent then [SinkEvent.close r.client] else []))
  else
    (true, [])

/-- The events of the completion block of `Poll` for a finished request:
the frame/OK delivery and close of `completeRequest`, followed by the
completion callback when the request was marked to notify. -/
def completionEventsOf (env : SinkEnv) (closeAfterResponse : Bool)
    (r3 : PendingRequest) : List SinkEvent :=
  let (ok, completionEvents) := completeRequest env closeAfterResponse r3
  completionEvents ++
    (if r3.notifyCompletion && env.completePresent then
      [SinkEvent.complete r3.id r3.client ok] else [])

/-- The outcome of one iteration of the outer `while` of `Poll` on the head
request: stop polling (`blocked`, possibly with the head updated), pop the
completed head and keep polling (`popped`), or re-enter the loop on the
same head after inserting the final frame wait (`again` — the lone
`continue` of the source). -/
inductive HeadStep where
  | blocked (r : PendingRequest) (events : List SinkEvent)
  | popped (events : List SinkEvent)
  | again (r : PendingRequest) (events : List SinkEvent)
deriving Repr

/-- The part of the loop body after the countdown/deadline gates: run the
inner action loop, then the completion check. -/
def headAfterWaits (env : SinkEnv) (now : Nat) (closeAfterResponse : Bool)
    (spacing : Nat) (r2 : PendingRequest) : HeadStep :=
  let inner := runInner env now spacing (r2.actions.drop r2.nextAction)
  let r3 := { r2 with
               nextAction := r2.nextAction + inner.consumed
               framesRemaining := inner.framesSet
               resumeAt := inner.resumeSet
               sawKeyAction := r2.sawKeyAction || inner.pressSeen }
  let events :=
    match inner.keyCommand with
    | some command => [SinkEvent.key r3.id r3.client command]
    | none => []
  if r3.actions.length ≤ r3.nextAction && r3.framesRemaining = 0 &&
      r3.resumeAt = none then
    if r3.sawKeyAction && !r3.finalFrameWaitInserted then
      -- insert the final frame wait and `continue` the outer loop
      .again { r3 with
                framesRemaining := max 1 spacing
                finalFrameWaitInserted := true } events
    else
      .popped (events ++ completionEventsOf env closeAfterResponse r3)
  else
    -- `!advanced`, a pending wait, or the one-key-action-per-poll break
    .blocked r3 events

/-- One iteration of the outer `while` of `Poll` over the head request. -/
def headIter (env : SinkEnv) (now : Nat) (closeAfterResponse : Bool)
    (spacing : Nat) (r0 : PendingRequest) : HeadStep :=
  let r1 := if r0.framesRemaining > 0
            then { r0 with framesRemaining := r0.framesRemaining - 1 } else r0
  if r0.framesRemaining > 1 then
    -- decremented but still counting down: break
    .blocked r1 []
  else
    match r1.resumeAt with
    | some deadline =>
      if now < deadline then .blocked r1 []
      else headAfterWaits env now closeAfterResponse spacing
        { r1 with resumeAt := none }
    | none => headAfterWaits env now closeAfterResponse spacing r1

/-- The head request's share of one `Poll`: the loop body, re-entered once
when the final frame wait was just inserted (`again` sets
`finalFrameWaitInserted`, so a second `again` cannot occur; the catch-all
maps it to `blocked` for totality). -/
def processHead (env : SinkEnv) (now : Nat) (closeAfterResponse : Bool)
    (spacing : Nat) (r : PendingRequest) : HeadStep :=
  match headIter env now closeAfterResponse spacing r with
  | .again r' events =>
    (match headIter env now closeAfterResponse spacing r' with
     | .blocked r'' events' => .blocked r'' (events ++ events')
     | .popped events' => .popped (events ++ events')
     | .again r'' events' => .blocked r'' (events ++ events'))
  | step => step

/-- The outer `while` of `Poll`: process the head; when it completes and is
popped, continue with the next request in the same poll.  (The source
re-reads the monotonic clock after a pop; the re-read is modelled as the
same instant `now`.) -/
def pollLoop (env : SinkEnv) (now : Nat) (closeAfterResponse : Bool)
    (spacing : Nat) : List PendingRequest → List PendingRequest × List SinkEvent
  | [] => ([], [])
  | r :: rest =>
    match processHead env now closeAfterResponse spacing r with
    | .blocked r' events => (r' :: rest, events)
    | .popped events =>
        let (rest', events') := pollLoop env now closeAfterResponse spacing rest
        (rest', events ++ events')
    | .again r' events => (r' :: rest, events)   -- processHead never yields again

/-- `QueuedTypeActionSink::Poll`. -/
def SinkPoll (env : SinkEnv) (now : Nat) (s : SinkState) :
    SinkState × List SinkEvent :=
  let (pending', events) :=
    pollLoop env now s.closeAfterResponse s.tokenFrameSpacing s.pending
  ({ s with pending := pending' }, events)

/-- `QueuedTypeActionSink::CancelClient`: fail the completion callback of
every pending request from the client that was marked to notify, drop all
of the client's requests, then call the server's close hook. -/
def SinkCancelClient (env : SinkEnv) (client : Nat) (s : SinkState) :
    SinkState × List SinkEvent :=
  let cancelled := s.pending.filter fun r => r.client = client
  let events := cancelled.filterMap fun r =>
    if r.notifyCompletion && env.completePresent then
      some (SinkEvent.complete r.id r.client false)
    else none
  ({ s with pending := s.pending.filter fun r => r.client ≠ client },
   events ++ (if env.closePresent then [SinkEvent.close client] else []))

/-- A sequence of `Execute` calls (plan, originating client), returning the
responses in order. -/
def ExecuteSeq (env : SinkEnv) :
    List (TypeCommandPlan × Nat) → SinkState → SinkState × List CommandResponse
  | [], s => (s, [])
  | (plan, client) :: rest, s =>
    let (s', response, _) := SinkExecute env plan client s
    let (s'', responses) := ExecuteSeq env rest s'
    (s'', response :: responses)

/-- A sequence of `Poll` calls at the given instants, collecting every
event. -/
def PollSeq (env : SinkEnv) : List Nat → SinkState → SinkState × List SinkEvent
  | [], s => (s, [])
  | now :: rest, s =>
    let (s', events) := SinkPoll env now s
    let (s'', events') := PollSeq env rest s'
    (s'', events ++ events')

/-! ## Concrete fixtures used by the theorems -/

/-- Is this key event attributed to pending request `i`? -/
def SinkEvent.isKeyFor (i : Nat) : SinkEvent → Bool
  | .key j _ _ => j = i
  | _ => false

/-- The events of a `HeadStep`. -/
def HeadStep.events : HeadStep → List SinkEvent
  | .blocked _ evs => evs
  | .popped evs => evs
  | .again _ evs => evs

/-- The surviving head request of a `HeadStep`, if any. -/
def HeadStep.nextReq : HeadStep → Option PendingRequest
  | .blocked r _ => some r
  | .popped _ => none
  | .again r _ => some r

/-- A sink environment whose frame provider succeeds with `FRAME\n`. -/
def frameEnv : SinkEnv := { frameResult := { success := true, frame := "FRAME\n" } }

/-- A plan that presses one key and requests nothing else. -/
def pressPlan (key : String) : TypeCommandPlan :=
  { actions := [makeKeyAction .press key] }

/-- A plan that presses one key and requests a frame. -/
def pressFramePlan (key : String) : TypeCommandPlan :=
  { actions := [makeKeyAction .press key], requestFrame := true }

/-- Sink state after queueing `PRESS A` from client 1 and `PRESS B` from
client 2 (neither deferred: no frame request, `close_after_response`
off). -/
def twoPressState : SinkState :=
  (SinkExecute frameEnv (pressPlan "B") 2
    ((SinkExecute frameEnv (pressPlan "A") 1 ({} : SinkState)).1)).1

/-- Sink state after queueing a non-deferred `PRESS A` request from
client 7. -/
def client7PressState : SinkState :=
  (SinkExecute frameEnv (pressPlan "A") 7 ({} : SinkState)).1

/-- Sink state after queueing a deferred (frame-requesting) request from
client 7 and a non-frame request from client 9. -/
def client7FrameState : SinkState :=
  (SinkExecute frameEnv (pressPlan "C") 9
    ((SinkExecute frameEnv (pressFramePlan "A") 7 ({} : SinkState)).1)).1

/-- The 2×1 snapshot of the service round-trip test: cells `E`, `F`,
cursor disabled. -/
def c2Snapshot : Snapshot :=
  { columns := 2
    rows := 1
    cursor := {}
    cells := [⟨0x45, 0x07⟩, ⟨0x46, 0x07⟩] }

/-- The service configuration of that test: enabled, plain text, sentinel
`*`. -/
def c2Config : ServiceConfig :=
  { enable := true, showAttributes := false, sentinel := "*" }

/-- A dispatcher configuration with a client-requiring queued sink whose
`Execute` always defers, and a succeeding provider. -/
def c5Config : ProcConfig :=
  { providerResult := { success := true, frame := "FRAME\n" }
    sinkRequiresClient := true
    sinkExec := fun _ _ =>
      ({ ok := true, payload := "", deferred := true, deferredId := 99 }, []) }

/-! # Theorems -/

/-- C1: the spec says the dispatcher never throws out to the server and
that parsing `F`-plus-digit-string key tokens always completes.  The code
violates this: `map_f_key` feeds the digit string to `std::stoi` with no
try/catch (unlike the delay parsers, which catch), so the token
`F99999999999999` (above `INT_MAX`) makes `HandleCommand` propagate
`std::out_of_range` to the server, while a well-formed `TYPE F12` is
handled normally. -/
theorem c1_handleCommand_throws_on_long_fkey_digits :
    handleCommandInternalE {} {} "TYPE F99999999999999" 0 =
      Except.error "std::out_of_range thrown by std::stoi in map_f_key" ∧
    handleCommandInternalE {} {} "TYPE F12" 0 =
      Except.ok ({ requests := 1, success := 1 },
        { ok := true, payload := "OK\n" }) := by
  constructor <;> rfl

/-- C2: the spec and the repository's own tests require a
`<sentinel>META keys_down=<csv>` line before `<sentinel>PAYLOAD`, but
`BuildAnsiFrame` emits only the cols/rows/cursor/attributes META lines
even though `TextModeService::GetFrame` fills and sorts
`EncodingOptions::keys_down`: on the round-trip fixture the successful
frame contains no `keys_down` at all. -/
theorem c2_frame_lacks_keys_down_meta_line :
    (TextModeServiceGetFrame asciiToUtf8 true (some c2Snapshot) c2Config
      ["Shift"]).success = true ∧
    (TextModeServiceGetFrame asciiToUtf8 true (some c2Snapshot) c2Config
      ["Shift"]).frame =
      "*META cols=2\n*META rows=1\n*META cursor=disabled\n*META attributes=hide\n*PAYLOAD\nEF\n" ∧
    listHasInfix "keys_down".toList
      (TextModeServiceGetFrame asciiToUtf8 true (some c2Snapshot) c2Config
        ["Shift"]).frame.toList = false := by
  refine ⟨rfl, rfl, ?_⟩
  rfl

/-- C9: `TYPE "Peter"` with `macro_interkey_frames = 0` compiles to exactly
`Down Shift`, `Press P`, `Up Shift`, `Press E`, `Press T`, `Press E`,
`Press R` (uppercase letters wrapped in the Shift pair, lowercase bare),
the injector sees exactly those commands in order, and the reply is
`OK\n`. -/
theorem c9_type_peter_plan_and_reply :
    handleCommandInternalE {} {} "TYPE \"Peter\"" 0 =
      Except.ok ({ requests := 1, success := 1 },
        { ok := true, payload := "OK\n" }) ∧
    (handleTypeCommandE {} {} "\"Peter\"".toList 0).map
        (fun outcome => (outcome.plan, outcome.injector)) =
      Except.ok
        ({ actions :=
            [makeKeyAction .down "Shift", makeKeyAction .press "P",
             makeKeyAction .up "Shift", makeKeyAction .press "E",
             makeKeyAction .press "T", makeKeyAction .press "E",
             makeKeyAction .press "R"]
           requestFrame := false },
         ["DOWN Shift", "PRESS P", "UP Shift", "PRESS E", "PRESS T",
          "PRESS E", "PRESS R"]) := by
  constructor <;> rfl

/-! ### Helper lemmas about string-token compilation -/

theorem appendCharacterActions_no_delay (mapping : CharacterMapping) :
    ∀ a ∈ appendCharacterActions mapping, isDelayKind a.kind = false := by
  intro a ha
  by_cases hs : mapping.requiresShift <;>
    simp [appendCharacterActions, hs, makeKeyAction] at ha
  · rcases ha with ha | ha | ha <;> subst ha <;> rfl
  · subst ha; rfl

theorem appendCharacterActions_ne_df (mapping : CharacterMapping) (m : Nat) :
    ∀ a ∈ appendCharacterActions mapping, a ≠ makeDelayFramesAction m := by
  intro a ha he
  have := appendCharacterActions_no_delay mapping a ha
  subst he
  simp [makeDelayFramesAction, isDelayKind] at this

theorem appendCharacterActions_ne_nil (mapping : CharacterMapping) :
    appendCharacterActions mapping ≠ [] := by
  by_cases hs : mapping.requiresShift <;> simp [appendCharacterActions, hs]

theorem appendCharacterActions_getLast_not_delay (mapping : CharacterMapping) :
    ∀ a, (appendCharacterActions mapping).getLast? = some a →
      isDelayKind a.kind = false := by
  intro a ha
  by_cases hs : mapping.requiresShift <;>
    simp [appendCharacterActions, hs, makeKeyAction, List.getLast?] at ha <;>
    subst ha <;> rfl

/-- One-step unfolding of `appendStringActions` on a mapped character. -/
theorem appendStringActions_cons_some (ch : Char) (rest : List Char) (m : Nat)
    (mp : CharacterMapping) (hmp : mapCharacterToKey ch = some mp) :
    appendStringActions (ch :: rest) m =
      appendCharacterActions mp ++
      (if rest ≠ [] && m > 0 then [makeDelayFramesAction m] else []) ++
      appendStringActions rest m := by
  have huf : appendStringActions (ch :: rest) m =
      (match mapCharacterToKey ch with
       | none => appendStringActions rest m
       | some mapping =>
         appendCharacterActions mapping ++
         (if rest ≠ [] && m > 0 then [makeDelayFramesAction m] else []) ++
         appendStringActions rest m) := rfl
  rw [huf, hmp]

theorem appendStringActions_ne_nil (text : List Char) (m : Nat)
    (hmap : ∀ c ∈ text, (mapCharacterToKey c).isSome) (htext : text ≠ []) :
    appendStringActions text m ≠ [] := by
  cases text with
  | nil => exact absurd rfl htext
  | cons c rest =>
    obtain ⟨mp, hmp⟩ :=
      Option.isSome_iff_exists.mp (hmap c (List.mem_cons_self c rest))
    rw [appendStringActions_cons_some c rest m mp hmp]
    simp [List.append_eq_nil, appendCharacterActions_ne_nil mp]

/-- With every character mapped, the number of delay actions produced for a
quoted string is `0` when `macro_interkey_frames = 0` and `n - 1` when it
is positive, every delay being exactly `DelayFrames{m}`. -/
theorem appendStringActions_delay_count (text : List Char) (m : Nat)
    (hmap : ∀ c ∈ text, (mapCharacterToKey c).isSome) :
    (m = 0 →
      (appendStringActions text m).countP (fun a => isDelayKind a.kind) = 0) ∧
    (0 < m →
      (appendStringActions text m).countP (fun a => isDelayKind a.kind) =
        text.length - 1 ∧
      (appendStringActions text m).countP
          (fun a => a = makeDelayFramesAction m) = text.length - 1) := by
  induction text with
  | nil => simp [appendStringActions]
  | cons c rest ih =>
    obtain ⟨mp, hmp⟩ :=
      Option.isSome_iff_exists.mp (hmap c (List.mem_cons_self c rest))
    have hrest : ∀ c ∈ rest, (mapCharacterToKey c).isSome := by
      intro x hx; exact hmap x (List.mem_cons_of_mem c hx)
    have ihr := ih hrest
    have hchar0 :
        (appendCharacterActions mp).countP (fun a => isDelayKind a.kind) = 0 :=
      List.countP_eq_zero.mpr (by
        intro a ha
        simp [appendCharacterActions_no_delay mp a ha])
    have hchar1 :
        (appendCharacterActions mp).countP
          (fun a => a = makeDelayFramesAction m) = 0 :=
      List.countP_eq_zero.mpr (by
        intro a ha
        simp [appendCharacterActions_ne_df mp m a ha])
    rw [appendStringActions_cons_some c rest m mp hmp]
    constructor
    · intro hm
      subst hm
      simp [List.countP_append, hchar0, (ihr.1) rfl]
    · intro hm
      cases rest with
      | nil =>
        simp [List.countP_append, hchar0, hchar1, appendStringActions]
      | cons d rest' =>
        have hcond : (decide (d :: rest' ≠ []) && decide (m > 0)) = true := by
          simp [hm]
        rw [hcond]
        simp only [if_true]
        rw [List.countP_append, List.countP_append, List.countP_append,
            List.countP_append]
        constructor
        · have hdf :
              ([makeDelayFramesAction m].countP (fun a => isDelayKind a.kind)) = 1 := by
            simp [List.countP_cons, makeDelayFramesAction, isDelayKind]
          rw [hchar0, hdf, (ihr.2 hm).1]
          simp [List.length_cons]
          omega
        · have hdf :
              ([makeDelayFramesAction m].countP
                (fun a => a = makeDelayFramesAction m)) = 1 := by
            simp [List.countP_cons]
          rw [hchar1, hdf, (ihr.2 hm).2]
          simp [List.length_cons]
          omega

/-- With every character mapped, the compiled actions of a quoted string
never end in a delay (the inter-character delay is never trailing). -/
theorem appendStringActions_last_not_delay (text : List Char) (m : Nat)
    (hmap : ∀ c ∈ text, (mapCharacterToKey c).isSome) :
    ∀ a, (appendStringActions text m).getLast? = some a →
      isDelayKind a.kind = false := by
  induction text with
  | nil => intro a ha; simp [appendStringActions] at ha
  | cons c rest ih =>
    intro a ha
    obtain ⟨mp, hmp⟩ :=
      Option.isSome_iff_exists.mp (hmap c (List.mem_cons_self c rest))
    have hrest : ∀ c ∈ rest, (mapCharacterToKey c).isSome := by
      intro x hx; exact hmap x (List.mem_cons_of_mem c hx)
    rw [appendStringActions_cons_some c rest m mp hmp] at ha
    cases hre : rest with
    | nil =>
      subst hre
      simp [appendStringActions] at ha
      exact appendCharacterActions_getLast_not_delay mp a ha
    | cons d rest' =>
      have hne : appendStringActions rest m ≠ [] :=
        appendStringActions_ne_nil rest m hrest (by simp [hre])
      subst hre
      rw [List.append_assoc,
          List.getLast?_append_of_ne_nil _
            (by
              intro hnil
              rcases List.append_eq_nil.mp hnil with ⟨-, h2⟩
              exact hne h2)] at ha
      rw [List.getLast?_append_of_ne_nil _ hne] at ha
      exact ih hrest a ha

/-- C6 counterexample: a quoted string containing an unmapped character
falsifies the claim as stated.  `append_string_actions` decides `have_more`
on the raw text, so for `"ab\x01"` under `macro_interkey_frames = 1`
(`'\x01'` has no mapping and is skipped with a warning) the compiled run is
`Press A, DelayFrames 1, Press B, DelayFrames 1` — it ends in a trailing
delay; and for `"a\x01\x01"` only one delay is emitted although the string
has three characters, so the `n - 1` count fails too. -/
theorem c6_counterexample_unmapped_char_trailing_delay :
    appendStringActions ('a' :: 'b' :: '\x01' :: []) 1 =
      [makeKeyAction .press "A", makeDelayFramesAction 1,
       makeKeyAction .press "B", makeDelayFramesAction 1] ∧
    (appendStringActions ('a' :: 'b' :: '\x01' :: []) 1).getLast? =
      some (makeDelayFramesAction 1) ∧
    isDelayKind (makeDelayFramesAction 1).kind = true ∧
    appendStringActions ('a' :: '\x01' :: '\x01' :: []) 1 =
      [makeKeyAction .press "A", makeDelayFramesAction 1] ∧
    (appendStringActions ('a' :: '\x01' :: '\x01' :: []) 1).countP
        (fun a => isDelayKind a.kind) = 1 ∧
    ('a' :: '\x01' :: '\x01' :: []).length - 1 = 2 ∧ (1 : Nat) ≠ 2 :=
  ⟨rfl, rfl, rfl, rfl, rfl, rfl, by decide⟩

/-- C6 (amended): for a quoted string of `n` characters, every one of which
has a character-to-key mapping, compiled under `macro_interkey_frames = m`:
`m = 0` inserts no delay actions at all, and `m > 0` inserts exactly
`n - 1` `DelayFrames{m}` actions, with the compiled run never ending in a
delay.  (When the string contains unmapped characters — skipped with a
warning — an inter-character delay is still emitted after each mapped
non-final character, so the run may end in a trailing delay and the count
may differ from `n - 1`.) -/
theorem c6_interkey_delay_count (text : List Char) (m : Nat)
    (hmap : ∀ c ∈ text, (mapCharacterToKey c).isSome) :
    (m = 0 →
      (appendStringActions text m).countP (fun a => isDelayKind a.kind) = 0) ∧
    (0 < m →
      (appendStringActions text m).countP (fun a => isDelayKind a.kind) =
        text.length - 1 ∧
      (appendStringActions text m).countP
          (fun a => a = makeDelayFramesAction m) = text.length - 1 ∧
      ∀ a, (appendStringActions text m).getLast? = some a →
        isDelayKind a.kind = false) := by
  refine ⟨(appendStringActions_delay_count text m hmap).1, fun hm => ?_⟩
  obtain ⟨h1, h2⟩ := (appendStringActions_delay_count text m hmap).2 hm
  exact ⟨h1, h2, appendStringActions_last_not_delay text m hmap⟩

/-- Witness for C6 at `text = "ab"`, `m = 2`. -/
theorem c6_interkey_delay_count_witness :
    (∀ c ∈ "ab".toList, (mapCharacterToKey c).isSome) ∧
    (0 < 2 →
      (appendStringActions "ab".toList 2).countP (fun a => isDelayKind a.kind) =
        "ab".toList.length - 1 ∧
      (appendStringActions "ab".toList 2).countP
          (fun a => a = makeDelayFramesAction 2) = "ab".toList.length - 1 ∧
      ∀ a, (appendStringActions "ab".toList 2).getLast? = some a →
        isDelayKind a.kind = false) :=
  ⟨by decide, (c6_interkey_delay_count "ab".toList 2 (by decide)).2⟩

set_option maxRecDepth 100000 in
/-- C10: a bare `TYPE` token that matches `GET` or `VIEW` only
case-insensitively still sets `request_frame` (after a logged case
warning) and appends no action, exactly as the correctly-cased token
would; by contrast, the case-mismatched delay token `250MS` and key token
`SHIFT` are dropped, leaving the plan unchanged. -/
theorem c10_case_insensitive_get_view (m : Nat) (plan : TypeCommandPlan)
    (t : List Char)
    (h1 : t ≠ "GET".toList) (h2 : t ≠ "VIEW".toList)
    (h3 : listToUpper t = "GET".toList ∨ listToUpper t = "VIEW".toList) :
    classifyTypeToken m plan ⟨t, false⟩ =
      Except.ok { plan with requestFrame := true } ∧
    classifyTypeToken m plan ⟨"250MS".toList, false⟩ = Except.ok plan ∧
    classifyTypeToken m plan ⟨"SHIFT".toList, false⟩ = Except.ok plan := by
  refine ⟨?_, rfl, rfl⟩
  have ht : t ≠ [] := by
    intro h
    subst h
    rcases h3 with h3 | h3 <;> simp [listToUpper] at h3
  rcases h3 with h3 | h3 <;>
    simp [classifyTypeToken, ht, h1, h2, h3]

/-- Witness for C10 at the token `get`. -/
theorem c10_case_insensitive_get_view_witness :
    ("get".toList ≠ "GET".toList ∧ "get".toList ≠ "VIEW".toList ∧
      (listToUpper "get".toList = "GET".toList ∨
       listToUpper "get".toList = "VIEW".toList)) ∧
    classifyTypeToken 0 {} ⟨"get".toList, false⟩ =
      Except.ok { ({} : TypeCommandPlan) with requestFrame := true } :=
  ⟨⟨by decide, by decide, Or.inl (by decide)⟩,
   (c10_case_insensitive_get_view 0 {} "get".toList (by decide) (by decide)
      (Or.inl (by decide))).1⟩

/-- C3 counterexample: a `GET` with no frame provider wired replies with an
ERR line but leaves every counter untouched (the claim says `requests` and
`failures` both increment); the explicit zero counters in the result come
from the zero initial state. -/
theorem c3_counterexample_no_provider_counters_untouched :
    handleCommandInternalE { providerPresent := false } {} "GET" 0 =
      Except.ok
        ({ requests := 0, success := 0, failures := 0, exitRequested := false },
         { ok := false, payload := "ERR service unavailable\n" }) := rfl

/-- C3 (amended): when a `GET`/`VIEW` reaches a wired provider that reports
failure, the dispatcher replies ERR and increments `requests` and
`failures` by exactly one; when no provider is wired it replies
`ERR service unavailable` without touching any counter. -/
theorem c3_get_failure_accounting (cfg : ProcConfig) (st : ProcState)
    (client : Nat) (cmd : String) (hcmd : cmd = "GET" ∨ cmd = "VIEW") :
    (cfg.providerPresent = false →
      handleCommandInternalE cfg st cmd client =
        Except.ok (st, { ok := false, payload := "ERR service unavailable\n" })) ∧
    (cfg.providerPresent = true → cfg.providerResult.success = false →
      handleCommandInternalE cfg st cmd client =
        Except.ok
          ({ st with
              requests := st.requests + 1
              failures := st.failures + 1 },
           { ok := false,
             payload := "ERR " ++ cfg.providerResult.error ++ "\n" })) := by
  obtain ⟨pp, pr, kp, kd, mif, src, qnf, adf, se⟩ := cfg
  obtain ⟨psucc, pframe, perr⟩ := pr
  constructor
  · intro hp
    have hp' : pp = false := hp
    subst hp'
    rcases hcmd with h | h <;> subst h <;> rfl
  · intro hp hf
    have hp' : pp = true := hp
    have hf' : psucc = false := hf
    subst hp'
    subst hf'
    rcases hcmd with h | h <;> subst h <;> rfl

/-- Witness for C3 at concrete configurations: no provider (counters stay
at zero) and a provider failing with `boom` (requests and failures reach
one). -/
theorem c3_get_failure_accounting_witness :
    ("GET" = "GET" ∨ "GET" = "VIEW") ∧
    handleCommandInternalE { providerPresent := false } {} "GET" 5 =
      Except.ok ({}, { ok := false, payload := "ERR service unavailable\n" }) ∧
    handleCommandInternalE { providerResult := { error := "boom" } } {} "GET" 5 =
      Except.ok ({ requests := 1, failures := 1 },
        { ok := false, payload := "ERR boom\n" }) :=
  ⟨Or.inl rfl,
   (c3_get_failure_accounting { providerPresent := false } {} 5 "GET"
      (Or.inl rfl)).1 rfl,
   (c3_get_failure_accounting { providerResult := { error := "boom" } } {} 5
      "GET" (Or.inl rfl)).2 rfl rfl⟩

/-- C5 counterexample: with a client-requiring sink configured, a real
client (`1`), non-frame queueing enabled and deferred frames enabled — all
four conditions of the decision rule — the command `TYPE GET` compiles to
a plan with `request_frame` set and no actions, and the dispatcher answers
it synchronously from the provider without handing it to the sink
(`usedQueue = false`), contradicting the claim's "including when the
compiled plan has request_frame set but an empty action list". -/
theorem c5_counterexample_empty_plan_not_handed_to_sink :
    (handleTypeCommandE c5Config {} "GET".toList 1).map
        (fun outcome => (outcome.usedQueue, outcome.plan, outcome.response)) =
      Except.ok (false, { actions := [], requestFrame := true },
        { ok := true, payload := "FRAME\n" }) ∧
    c5Config.sinkRequiresClient = true ∧
    c5Config.queueNonFrameCommands = true ∧
    c5Config.allowDeferredFrames = true ∧
    c5Config.keyboardPresent = true :=
  ⟨rfl, rfl, rfl, rfl, rfl⟩

/-- C5 (amended): whenever a `TYPE` command compiles to a plan with at
least one action and (a) a sink is configured (always true: the dispatcher
installs an immediate sink by default), (b) the origin is a real client if
the sink is client-required, (c) the plan requests a frame or non-frame
queueing is enabled, and (d) deferred frames are enabled, the dispatcher
hands the plan to the configured sink's `Execute` and returns its
response; a compiled plan with no actions is instead answered
synchronously without consulting the sink. -/
theorem c5_defer_decision (cfg : ProcConfig) (st : ProcState)
    (argument : List Char) (client : Nat) (plan : TypeCommandPlan)
    (hkb : cfg.keyboardPresent = true)
    (hplan : compileTypePlanE cfg.macroInterkeyFrames argument = Except.ok plan)
    (hne : plan.actions ≠ [])
    (hclient : ¬(client = 0 ∧ cfg.sinkRequiresClient = true))
    (hframe : plan.requestFrame = true ∨ cfg.queueNonFrameCommands = true)
    (hdef : cfg.allowDeferredFrames = true) :
    (handleTypeCommandE cfg st argument client).map
        (fun outcome => (outcome.usedQueue, outcome.response, outcome.injector)) =
      Except.ok (true, cfg.sinkExec plan client) := by
  have h1 : (!(decide (client = 0) && cfg.sinkRequiresClient)) = true := by
    cases hsr : cfg.sinkRequiresClient
    · simp
    · have hc : ¬ client = 0 := fun h => hclient ⟨h, hsr⟩
      simp [hc]
  have h2 : (plan.requestFrame || cfg.queueNonFrameCommands) = true := by
    rcases hframe with h | h <;> simp [h]
  cases hs : cfg.sinkExec plan client with
  | mk response injector =>
    simp only [handleTypeCommandE, hkb, Bool.not_true, Bool.false_eq_true,
      if_false, hplan, Except.bind]
    simp [Except.map, hne, h1, h2, hdef, hs]
    rfl

/-- Witness for C5: `TYPE A` from client 1 under `c5Config` is handed to
the configured sink, whose deferred response (id 99) is returned. -/
theorem c5_defer_decision_witness :
    (c5Config.keyboardPresent = true ∧
     compileTypePlanE c5Config.macroInterkeyFrames "A".toList =
       Except.ok { actions := [makeKeyAction .press "A"] } ∧
     ({ actions := [makeKeyAction .press "A"] } : TypeCommandPlan).actions ≠ [] ∧
     ¬((1 : Nat) = 0 ∧ c5Config.sinkRequiresClient = true) ∧
     (({ actions := [makeKeyAction .press "A"] } : TypeCommandPlan).requestFrame = true ∨
       c5Config.queueNonFrameCommands = true) ∧
     c5Config.allowDeferredFrames = true) ∧
    (handleTypeCommandE c5Config {} "A".toList 1).map
        (fun outcome => (outcome.usedQueue, outcome.response, outcome.injector)) =
      Except.ok (true,
        c5Config.sinkExec { actions := [makeKeyAction .press "A"] } 1) :=
  ⟨⟨rfl, rfl, by decide, by decide, Or.inr rfl, rfl⟩,
   c5_defer_decision c5Config {} "A".toList 1
     { actions := [makeKeyAction .press "A"] } rfl rfl (by decide) (by decide)
     (Or.inr rfl) rfl⟩

/-! ### Helper lemmas about `Execute` and deferred ids -/

theorem SinkExecute_nextId_cases (env : SinkEnv) (p : TypeCommandPlan)
    (c : Nat) (s : SinkState) (h : s.nextId + 1 < UINT64_MOD) :
    (SinkExecute env p c s).1.nextId = s.nextId ∨
    (SinkExecute env p c s).1.nextId = s.nextId + 1 := by
  by_cases hp : p.actions = []
  · left
    simp only [SinkExecute, hp]
    split_ifs <;> rfl
  · right
    simp only [SinkExecute, hp]
    have hmod : (s.nextId + 1) % UINT64_MOD = s.nextId + 1 := Nat.mod_eq_of_lt h
    split_ifs <;> simp_all [hmod]

theorem SinkExecute_nextId_ge (env : SinkEnv) (p : TypeCommandPlan)
    (c : Nat) (s : SinkState) (h : s.nextId + 1 < UINT64_MOD) :
    s.nextId ≤ (SinkExecute env p c s).1.nextId := by
  rcases SinkExecute_nextId_cases env p c s h with hc | hc <;> omega

theorem SinkExecute_nextId_le (env : SinkEnv) (p : TypeCommandPlan)
    (c : Nat) (s : SinkState) (h : s.nextId + 1 < UINT64_MOD) :
    (SinkExecute env p c s).1.nextId ≤ s.nextId + 1 := by
  rcases SinkExecute_nextId_cases env p c s h with hc | hc <;> omega

theorem SinkExecute_deferred_spec (env : SinkEnv) (p : TypeCommandPlan)
    (c : Nat) (s : SinkState) (h : s.nextId + 1 < UINT64_MOD)
    (hd : (SinkExecute env p c s).2.1.deferred = true) :
    (SinkExecute env p c s).2.1.deferredId = s.nextId ∧
    (SinkExecute env p c s).1.nextId = s.nextId + 1 := by
  by_cases hp : p.actions = []
  · exfalso
    revert hd
    simp only [SinkExecute, hp]
    split_ifs <;> simp_all
  · have hmod : (s.nextId + 1) % UINT64_MOD = s.nextId + 1 := Nat.mod_eq_of_lt h
    revert hd
    simp only [SinkExecute, hp]
    split_ifs <;> simp [hmod]

theorem ExecuteSeq_deferred_lower (env : SinkEnv) :
    ∀ (reqs : List (TypeCommandPlan × Nat)) (s : SinkState),
      s.nextId + reqs.length < UINT64_MOD →
      ∀ (k : Nat) (r : CommandResponse),
        ((ExecuteSeq env reqs s).2)[k]? = some r → r.deferred = true →
        s.nextId ≤ r.deferredId := by
  intro reqs
  induction reqs with
  | nil => intro s _ k r hk; simp [ExecuteSeq] at hk
  | cons pc rest ih =>
    intro s hbound k r hk hd
    obtain ⟨p, c⟩ := pc
    have h1 : s.nextId + 1 < UINT64_MOD := by
      simp [List.length_cons] at hbound; omega
    rcases hE : SinkExecute env p c s with ⟨s', resp, evs⟩
    rcases hR : ExecuteSeq env rest s' with ⟨s'', resps⟩
    simp only [ExecuteSeq, hE, hR] at hk
    cases k with
    | zero =>
      simp at hk
      subst hk
      have := SinkExecute_deferred_spec env p c s h1 (by rw [hE]; exact hd)
      rw [hE] at this
      simp at this
      omega
    | succ k' =>
      simp at hk
      have hle : s'.nextId ≤ s.nextId + 1 := by
        have := SinkExecute_nextId_le env p c s h1
        rw [hE] at this
        exact this
      have hge : s.nextId ≤ s'.nextId := by
        have := SinkExecute_nextId_ge env p c s h1
        rw [hE] at this
        exact this
      have hb' : s'.nextId + rest.length < UINT64_MOD := by
        simp [List.length_cons] at hbound; omega
      have := ih s' hb' k' r (by rw [hR]; simpa using hk) hd
      omega

/-- C8: across any sequence of `Execute` calls that stays within the
`uint64_t` id space, every deferred response's `deferred_id` is strictly
greater than every earlier deferred response's `deferred_id` — ids are
monotonically increasing and never reused within a process lifetime. -/
theorem c8_deferred_id_strictly_increasing (env : SinkEnv) :
    ∀ (reqs : List (TypeCommandPlan × Nat)) (s : SinkState) (i j : Nat)
      (ri rj : CommandResponse),
      s.nextId + reqs.length < UINT64_MOD → i < j →
      ((ExecuteSeq env reqs s).2)[i]? = some ri →
      ((ExecuteSeq env reqs s).2)[j]? = some rj →
      ri.deferred = true → rj.deferred = true →
      ri.deferredId < rj.deferredId := by
  intro reqs
  induction reqs with
  | nil => intro s i j ri rj _ _ hi; simp [ExecuteSeq] at hi
  | cons pc rest ih =>
    intro s i j ri rj hbound hij hi hj hdi hdj
    obtain ⟨p, c⟩ := pc
    have h1 : s.nextId + 1 < UINT64_MOD := by
      simp [List.length_cons] at hbound; omega
    rcases hE : SinkExecute env p c s with ⟨s', resp, evs⟩
    rcases hR : ExecuteSeq env rest s' with ⟨s'', resps⟩
    simp only [ExecuteSeq, hE, hR] at hi hj
    have hle : s'.nextId ≤ s.nextId + 1 := by
      have := SinkExecute_nextId_le env p c s h1
      rw [hE] at this
      exact this
    have hge : s.nextId ≤ s'.nextId := by
      have := SinkExecute_nextId_ge env p c s h1
      rw [hE] at this
      exact this
    have hb' : s'.nextId + rest.length < UINT64_MOD := by
      simp [List.length_cons] at hbound; omega
    cases j with
    | zero => omega
    | succ j' =>
      simp at hj
      cases i with
      | zero =>
        simp at hi
        subst hi
        have hspec := SinkExecute_deferred_spec env p c s h1 (by rw [hE]; exact hdi)
        rw [hE] at hspec
        simp at hspec
        have hlow := ExecuteSeq_deferred_lower env rest s' hb' j' rj
          (by rw [hR]; simpa using hj) hdj
        omega
      | succ i' =>
        exact ih s' i' j' ri rj hb' (by omega)
          (by rw [hR]; simpa using hi) (by rw [hR]; simpa using hj) hdi hdj

/-- Witness for C8: two frame-requesting `Execute` calls from the initial
state receive deferred ids `1 < 2`. -/
theorem c8_deferred_id_strictly_increasing_witness :
    ((({} : SinkState).nextId +
        ([(pressFramePlan "A", 1), (pressFramePlan "B", 2)] :
          List (TypeCommandPlan × Nat)).length < UINT64_MOD) ∧ (0 : Nat) < 1 ∧
      ((ExecuteSeq frameEnv [(pressFramePlan "A", 1), (pressFramePlan "B", 2)]
          {}).2)[0]? =
        some { ok := true, payload := "", deferred := true, deferredId := 1 } ∧
      ((ExecuteSeq frameEnv [(pressFramePlan "A", 1), (pressFramePlan "B", 2)]
          {}).2)[1]? =
        some { ok := true, payload := "", deferred := true, deferredId := 2 }) ∧
    (1 : Nat) < 2 :=
  ⟨⟨by decide, by decide, by rfl, by rfl⟩,
   c8_deferred_id_strictly_increasing frameEnv
     [(pressFramePlan "A", 1), (pressFramePlan "B", 2)] {} 0 1
     { ok := true, payload := "", deferred := true, deferredId := 1 }
     { ok := true, payload := "", deferred := true, deferredId := 2 }
     (by decide) (by decide) (by rfl) (by rfl) rfl rfl⟩

/-! ### Helper lemmas about `Poll` events -/

theorem isKeyFor_imp_isKey (i : Nat) (e : SinkEvent)
    (h : SinkEvent.isKeyFor i e = true) : e.isKey = true := by
  cases e <;> simp_all [SinkEvent.isKeyFor, SinkEvent.isKey]

theorem countP_isKeyFor_zero (evs : List SinkEvent)
    (h : ∀ e ∈ evs, e.isKey = false) (i : Nat) :
    evs.countP (SinkEvent.isKeyFor i) = 0 :=
  List.countP_eq_zero.mpr (by
    intro e he hk
    have := isKeyFor_imp_isKey i e hk
    rw [h e he] at this
    exact Bool.false_ne_true this)

theorem completeRequest_events (env : SinkEnv) (caf : Bool) (r : PendingRequest) :
    ∀ e ∈ (completeRequest env caf r).2, e.clientOf = r.client ∧ e.isKey = false := by
  intro e he
  unfold completeRequest at he
  split_ifs at he <;>
    simp only [List.mem_append, List.mem_cons, List.not_mem_nil, or_false,
      false_or] at he <;>
    rcases he with (rfl | rfl) | rfl <;>
    simp [SinkEvent.clientOf, SinkEvent.isKey]

theorem completionEventsOf_events (env : SinkEnv) (caf : Bool)
    (r : PendingRequest) :
    ∀ e ∈ completionEventsOf env caf r, e.clientOf = r.client ∧ e.isKey = false := by
  intro e he
  unfold completionEventsOf at he
  rcases hc : completeRequest env caf r with ⟨ok, cevs⟩
  rw [hc] at he
  rcases List.mem_append.mp he with he | he
  · exact completeRequest_events env caf r e (by rw [hc]; exact he)
  · split at he <;> simp_all [SinkEvent.clientOf, SinkEvent.isKey]

theorem headAfterWaits_spec (env : SinkEnv) (now : Nat) (caf : Bool)
    (spacing : Nat) (r2 : PendingRequest) :
    (∀ e ∈ (headAfterWaits env now caf spacing r2).events,
      e.clientOf = r2.client) ∧
    (∀ i, ((headAfterWaits env now caf spacing r2).events.countP
      (SinkEvent.isKeyFor i)) ≤ 1) ∧
    (∀ i, i ≠ r2.id → ((headAfterWaits env now caf spacing r2).events.countP
      (SinkEvent.isKeyFor i)) = 0) ∧
    (∀ r', (headAfterWaits env now caf spacing r2).nextReq = some r' →
      r'.id = r2.id ∧ r'.client = r2.client) ∧
    (∀ r' evs, headAfterWaits env now caf spacing r2 = .again r' evs →
      r'.actions.length ≤ r'.nextAction) := by
  unfold headAfterWaits
  rcases hkc : (runInner env now spacing (r2.actions.drop r2.nextAction)).keyCommand
    with _ | cmd <;>
    simp only [hkc] <;>
    split_ifs with h1 h2
  · -- no key command; final frame wait inserted (`again`)
    refine ⟨by simp [HeadStep.events], fun i => by simp [HeadStep.events],
      fun i _ => by simp [HeadStep.events], ?_, ?_⟩
    · intro r' h
      simp only [HeadStep.nextReq, Option.some.injEq] at h
      subst h
      exact ⟨rfl, rfl⟩
    · intro r' evs heq
      injection heq with hr hevs
      subst hr
      simp only [Bool.and_eq_true, decide_eq_true_eq] at h1
      exact h1.1.1
  · -- no key command; request completes and is popped
    have htail := completionEventsOf_events env caf
      { r2 with
          nextAction := r2.nextAction +
            (runInner env now spacing (List.drop r2.nextAction r2.actions)).consumed
          framesRemaining :=
            (runInner env now spacing (List.drop r2.nextAction r2.actions)).framesSet
          resumeAt :=
            (runInner env now spacing (List.drop r2.nextAction r2.actions)).resumeSet
          sawKeyAction := r2.sawKeyAction ||
            (runInner env now spacing (List.drop r2.nextAction r2.actions)).pressSeen }
    refine ⟨?_, ?_, ?_,
      by intro r' h; simp [HeadStep.nextReq] at h,
      by intro r' evs heq; exact absurd heq (by simp)⟩
    · intro e he
      simp only [HeadStep.events, List.nil_append] at he
      exact (htail e he).1
    · intro i
      simp only [HeadStep.events, List.nil_append]
      rw [countP_isKeyFor_zero _ (fun e he => (htail e he).2) i]
      omega
    · intro i _
      simp only [HeadStep.events, List.nil_append]
      exact countP_isKeyFor_zero _ (fun e he => (htail e he).2) i
  · -- no key command; still blocked
    refine ⟨by simp [HeadStep.events], fun i => by simp [HeadStep.events],
      fun i _ => by simp [HeadStep.events], ?_,
      by intro r' evs heq; exact absurd heq (by simp)⟩
    intro r' h
    simp only [HeadStep.nextReq, Option.some.injEq] at h
    subst h
    exact ⟨rfl, rfl⟩
  · -- key command dispatched; final frame wait inserted (`again`)
    refine ⟨?_, ?_, ?_, ?_, ?_⟩
    · intro e he
      simp [HeadStep.events] at he
      subst he
      rfl
    · intro i
      simp [HeadStep.events, List.countP_cons, SinkEvent.isKeyFor]
      split <;> simp
    · intro i hi
      simp [HeadStep.events, List.countP_cons, SinkEvent.isKeyFor, Ne.symm hi]
    · intro r' h
      simp only [HeadStep.nextReq, Option.some.injEq] at h
      subst h
      exact ⟨rfl, rfl⟩
    · intro r' evs heq
      injection heq with hr hevs
      subst hr
      simp only [Bool.and_eq_true, decide_eq_true_eq] at h1
      exact h1.1.1
  · -- key command dispatched; request completes and is popped
    have htail := completionEventsOf_events env caf
      { r2 with
          nextAction := r2.nextAction +
            (runInner env now spacing (List.drop r2.nextAction r2.actions)).consumed
          framesRemaining :=
            (runInner env now spacing (List.drop r2.nextAction r2.actions)).framesSet
          resumeAt :=
            (runInner env now spacing (List.drop r2.nextAction r2.actions)).resumeSet
          sawKeyAction := r2.sawKeyAction ||
            (runInner env now spacing (List.drop r2.nextAction r2.actions)).pressSeen }
    refine ⟨?_, ?_, ?_,
      by intro r' h; simp [HeadStep.nextReq] at h,
      by intro r' evs heq; exact absurd heq (by simp)⟩
    · intro e he
      simp only [HeadStep.events, List.cons_append, List.nil_append,
        List.mem_cons] at he
      rcases he with rfl | he
      · rfl
      · exact (htail e he).1
    · intro i
      simp only [HeadStep.events, List.cons_append, List.nil_append,
        List.countP_cons]
      rw [countP_isKeyFor_zero _ (fun e he => (htail e he).2) i]
      simp [SinkEvent.isKeyFor]
      split <;> simp
    · intro i hi
      simp only [HeadStep.events, List.cons_append, List.nil_append,
        List.countP_cons]
      rw [countP_isKeyFor_zero _ (fun e he => (htail e he).2) i]
      simp [SinkEvent.isKeyFor, Ne.symm hi]
  · -- key command dispatched; still blocked
    refine ⟨?_, ?_, ?_, ?_,
      by intro r' evs heq; exact absurd heq (by simp)⟩
    · intro e he
      simp [HeadStep.events] at he
      subst he
      rfl
    · intro i
      simp [HeadStep.events, List.countP_cons, SinkEvent.isKeyFor]
      split <;> simp
    · intro i hi
      simp [HeadStep.events, List.countP_cons, SinkEvent.isKeyFor, Ne.symm hi]
    · intro r' h
      simp only [HeadStep.nextReq, Option.some.injEq] at h
      subst h
      exact ⟨rfl, rfl⟩

theorem headIter_spec (env : SinkEnv) (now : Nat) (caf : Bool) (spacing : Nat)
    (r : PendingRequest) :
    (∀ e ∈ (headIter env now caf spacing r).events, e.clientOf = r.client) ∧
    (∀ i, ((headIter env now caf spacing r).events.countP
      (SinkEvent.isKeyFor i)) ≤ 1) ∧
    (∀ i, i ≠ r.id → ((headIter env now caf spacing r).events.countP
      (SinkEvent.isKeyFor i)) = 0) ∧
    (∀ r', (headIter env now caf spacing r).nextReq = some r' →
      r'.id = r.id ∧ r'.client = r.client) ∧
    (∀ r' evs, headIter env now caf spacing r = .again r' evs →
      r'.actions.length ≤ r'.nextAction) := by
  simp only [headIter]
  set R1 : PendingRequest :=
    (if r.framesRemaining > 0 then
      { r with framesRemaining := r.framesRemaining - 1 } else r)
    with hR1
  have hid : R1.id = r.id := by rw [hR1]; split <;> rfl
  have hcl : R1.client = r.client := by rw [hR1]; split <;> rfl
  by_cases hgt : r.framesRemaining > 1
  · simp only [if_pos hgt]
    refine ⟨by simp [HeadStep.events], fun i => by simp [HeadStep.events],
      fun i _ => by simp [HeadStep.events], ?_,
      by intro r' evs heq; exact absurd heq (by simp)⟩
    intro r' h
    simp only [HeadStep.nextReq, Option.some.injEq] at h
    subst h
    exact ⟨hid, hcl⟩
  · simp only [if_neg hgt]
    rcases hres : R1.resumeAt with _ | deadline
    · have hs := headAfterWaits_spec env now caf spacing R1
      exact ⟨fun e he => (hs.1 e he).trans hcl,
        hs.2.1,
        fun i hi => hs.2.2.1 i (fun h => hi (h.trans hid)),
        fun r' h =>
          ⟨((hs.2.2.2.1 r' h).1).trans hid, ((hs.2.2.2.1 r' h).2).trans hcl⟩,
        hs.2.2.2.2⟩
    · by_cases hnow : now < deadline
      · simp only [if_pos hnow]
        refine ⟨by simp [HeadStep.events], fun i => by simp [HeadStep.events],
          fun i _ => by simp [HeadStep.events], ?_,
          by intro r' evs heq; exact absurd heq (by simp)⟩
        intro r' h
        simp only [HeadStep.nextReq, Option.some.injEq] at h
        subst h
        exact ⟨hid, hcl⟩
      · simp only [if_neg hnow]
        have hs := headAfterWaits_spec env now caf spacing
          { R1 with resumeAt := none }
        exact ⟨fun e he => (hs.1 e he).trans hcl,
          hs.2.1,
          fun i hi => hs.2.2.1 i (fun h => hi (h.trans hid)),
          fun r' h =>
            ⟨((hs.2.2.2.1 r' h).1).trans hid, ((hs.2.2.2.1 r' h).2).trans hcl⟩,
          hs.2.2.2.2⟩

theorem headAfterWaits_no_actions_no_keys (env : SinkEnv) (now : Nat)
    (caf : Bool) (spacing : Nat) (r2 : PendingRequest)
    (h : r2.actions.length ≤ r2.nextAction) (i : Nat) :
    ((headAfterWaits env now caf spacing r2).events.countP
      (SinkEvent.isKeyFor i)) = 0 := by
  unfold headAfterWaits
  rw [List.drop_eq_nil_of_le h]
  simp only [runInner]
  split_ifs with h1 h2
  · simp [HeadStep.events]
  · simp only [HeadStep.events, List.nil_append]
    exact countP_isKeyFor_zero _
      (fun e he => (completionEventsOf_events env caf _ e he).2) i
  · simp [HeadStep.events]

theorem headIter_no_actions_no_keys (env : SinkEnv) (now : Nat) (caf : Bool)
    (spacing : Nat) (r : PendingRequest)
    (h : r.actions.length ≤ r.nextAction) (i : Nat) :
    ((headIter env now caf spacing r).events.countP
      (SinkEvent.isKeyFor i)) = 0 := by
  simp only [headIter]
  set R1 : PendingRequest :=
    (if r.framesRemaining > 0 then
      { r with framesRemaining := r.framesRemaining - 1 } else r)
    with hR1
  have hlen : R1.actions.length ≤ R1.nextAction := by
    rw [hR1]; split <;> exact h
  by_cases hgt : r.framesRemaining > 1
  · simp [if_pos hgt, HeadStep.events]
  · simp only [if_neg hgt]
    rcases hres : R1.resumeAt with _ | deadline
    · exact headAfterWaits_no_actions_no_keys env now caf spacing R1 hlen i
    · by_cases hnow : now < deadline
      · simp [if_pos hnow, HeadStep.events]
      · simp only [if_neg hnow]
        exact headAfterWaits_no_actions_no_keys env now caf spacing
          { R1 with resumeAt := none } hlen i

theorem processHead_spec (env : SinkEnv) (now : Nat) (caf : Bool)
    (spacing : Nat) (r : PendingRequest) :
    (∀ e ∈ (processHead env now caf spacing r).events, e.clientOf = r.client) ∧
    (∀ i, ((processHead env now caf spacing r).events.countP
      (SinkEvent.isKeyFor i)) ≤ 1) ∧
    (∀ i, i ≠ r.id → ((processHead env now caf spacing r).events.countP
      (SinkEvent.isKeyFor i)) = 0) ∧
    (∀ r', (processHead env now caf spacing r).nextReq = some r' →
      r'.client = r.client) := by
  have hs := headIter_spec env now caf spacing r
  rcases hstep : headIter env now caf spacing r with ⟨r1, evs⟩ | evs | ⟨r1, evs⟩ <;>
    rw [hstep] at hs <;>
    simp only [processHead, hstep] <;>
    simp only [HeadStep.events, HeadStep.nextReq] at hs
  · exact ⟨hs.1, hs.2.1, hs.2.2.1,
      fun r' h => ((hs.2.2.2.1 r' h).2)⟩
  · exact ⟨hs.1, hs.2.1, hs.2.2.1,
      by intro r' h; simp [HeadStep.nextReq] at h⟩
  · have hr1 := hs.2.2.2.1 r1 rfl
    have hlen := hs.2.2.2.2 r1 evs rfl
    have hs2 := headIter_spec env now caf spacing r1
    have hz := headIter_no_actions_no_keys env now caf spacing r1 hlen
    rcases hstep2 : headIter env now caf spacing r1
      with ⟨r2, evs'⟩ | evs' | ⟨r2, evs'⟩ <;>
      rw [hstep2] at hs2 hz <;>
      simp only [hstep2] <;>
      simp only [HeadStep.events, HeadStep.nextReq] at hs2 hz ⊢
    · refine ⟨?_, ?_, ?_, ?_⟩
      · intro e he
        rcases List.mem_append.mp he with he | he
        · exact hs.1 e he
        · exact (hs2.1 e he).trans hr1.2
      · intro i
        rw [List.countP_append, hz i]
        simpa using hs.2.1 i
      · intro i hi
        rw [List.countP_append, hz i]
        simpa using hs.2.2.1 i hi
      · intro r' h
        rw [Option.some.injEq] at h
        subst h
        exact (hs2.2.2.2.1 r2 rfl).2.trans hr1.2
    · refine ⟨?_, ?_, ?_, by intro r' h; exact absurd h (by simp)⟩
      · intro e he
        rcases List.mem_append.mp he with he | he
        · exact hs.1 e he
        · exact (hs2.1 e he).trans hr1.2
      · intro i
        rw [List.countP_append, hz i]
        simpa using hs.2.1 i
      · intro i hi
        rw [List.countP_append, hz i]
        simpa using hs.2.2.1 i hi
    · refine ⟨?_, ?_, ?_, ?_⟩
      · intro e he
        rcases List.mem_append.mp he with he | he
        · exact hs.1 e he
        · exact (hs2.1 e he).trans hr1.2
      · intro i
        rw [List.countP_append, hz i]
        simpa using hs.2.1 i
      · intro i hi
        rw [List.countP_append, hz i]
        simpa using hs.2.2.1 i hi
      · intro r' h
        rw [Option.some.injEq] at h
        subst h
        exact (hs2.2.2.2.1 r2 rfl).2.trans hr1.2

theorem pollLoop_no_client (env : SinkEnv) (now : Nat) (caf : Bool)
    (spacing : Nat) (c : Nat) :
    ∀ pending : List PendingRequest,
      (∀ r ∈ pending, r.client ≠ c) →
      (∀ e ∈ (pollLoop env now caf spacing pending).2, e.clientOf ≠ c) ∧
      (∀ q ∈ (pollLoop env now caf spacing pending).1, q.client ≠ c) := by
  intro pending
  induction pending with
  | nil => intro _; simp [pollLoop]
  | cons r rest ih =>
    intro hcl
    have hr : r.client ≠ c := hcl r (List.mem_cons_self r rest)
    have hrest : ∀ q ∈ rest, q.client ≠ c :=
      fun q hq => hcl q (List.mem_cons_of_mem r hq)
    have hp := processHead_spec env now caf spacing r
    rcases hstep : processHead env now caf spacing r
      with ⟨r1, evs⟩ | evs | ⟨r1, evs⟩ <;>
      rw [hstep] at hp <;>
      simp only [pollLoop, hstep] <;>
      simp only [HeadStep.events, HeadStep.nextReq] at hp
    · constructor
      · intro e he
        rw [hp.1 e he]
        exact hr
      · intro q hq
        rcases List.mem_cons.mp hq with rfl | hq
        · rw [hp.2.2.2 q rfl]
          exact hr
        · exact hrest q hq
    · rcases hrec : pollLoop env now caf spacing rest with ⟨rest', evs'⟩
      have hi := ih hrest
      rw [hrec] at hi
      simp only
      constructor
      · intro e he
        rcases List.mem_append.mp he with he | he
        · rw [hp.1 e he]; exact hr
        · exact hi.1 e he
      · exact hi.2
    · constructor
      · intro e he
        rw [hp.1 e he]
        exact hr
      · intro q hq
        rcases List.mem_cons.mp hq with rfl | hq
        · rw [hp.2.2.2 q rfl]
          exact hr
        · exact hrest q hq

theorem pollLoop_key_zero (env : SinkEnv) (now : Nat) (caf : Bool)
    (spacing : Nat) :
    ∀ (pending : List PendingRequest) (i : Nat),
      i ∉ pending.map PendingRequest.id →
      ((pollLoop env now caf spacing pending).2.countP
        (SinkEvent.isKeyFor i)) = 0 := by
  intro pending
  induction pending with
  | nil => intro i _; simp [pollLoop]
  | cons r rest ih =>
    intro i hi
    simp only [List.map_cons, List.mem_cons, not_or] at hi
    have hp := processHead_spec env now caf spacing r
    rcases hstep : processHead env now caf spacing r
      with ⟨r1, evs⟩ | evs | ⟨r1, evs⟩ <;>
      rw [hstep] at hp <;>
      simp only [pollLoop, hstep] <;>
      simp only [HeadStep.events] at hp
    · exact hp.2.2.1 i hi.1
    · rcases hrec : pollLoop env now caf spacing rest with ⟨rest', evs'⟩
      have hr' := ih i hi.2
      rw [hrec] at hr'
      simp only
      rw [List.countP_append, hp.2.2.1 i hi.1, hr']
    · exact hp.2.2.1 i hi.1

theorem pollLoop_key_bound (env : SinkEnv) (now : Nat) (caf : Bool)
    (spacing : Nat) :
    ∀ (pending : List PendingRequest),
      (pending.map PendingRequest.id).Nodup →
      ∀ i, ((pollLoop env now caf spacing pending).2.countP
        (SinkEvent.isKeyFor i)) ≤ 1 := by
  intro pending
  induction pending with
  | nil => intro _ i; simp [pollLoop]
  | cons r rest ih =>
    intro hnd i
    simp only [List.map_cons, List.nodup_cons] at hnd
    have hp := processHead_spec env now caf spacing r
    rcases hstep : processHead env now caf spacing r
      with ⟨r1, evs⟩ | evs | ⟨r1, evs⟩ <;>
      rw [hstep] at hp <;>
      simp only [pollLoop, hstep] <;>
      simp only [HeadStep.events] at hp
    · exact hp.2.1 i
    · rcases hrec : pollLoop env now caf spacing rest with ⟨rest', evs'⟩
      have hi := ih hnd.2 i
      rw [hrec] at hi
      simp only
      rw [List.countP_append]
      by_cases hir : i = r.id
      · have hz := pollLoop_key_zero env now caf spacing rest i
          (by rw [hir]; exact hnd.1)
        rw [hrec] at hz
        rw [hz]
        simpa using hp.2.1 i
      · rw [hp.2.2.1 i hir]
        simpa using hi
    · exact hp.2.1 i

theorem SinkPoll_no_client (env : SinkEnv) (now : Nat) (s : SinkState)
    (c : Nat) (h : ∀ r ∈ s.pending, r.client ≠ c) :
    (∀ e ∈ (SinkPoll env now s).2, e.clientOf ≠ c) ∧
    (∀ q ∈ (SinkPoll env now s).1.pending, q.client ≠ c) := by
  have := pollLoop_no_client env now s.closeAfterResponse s.tokenFrameSpacing c
    s.pending h
  rcases hrec : pollLoop env now s.closeAfterResponse s.tokenFrameSpacing
    s.pending with ⟨pending', events⟩
  rw [hrec] at this
  simp only [SinkPoll, hrec]
  exact this

theorem PollSeq_no_client (env : SinkEnv) (c : Nat) :
    ∀ (nows : List Nat) (s : SinkState),
      (∀ r ∈ s.pending, r.client ≠ c) →
      ∀ e ∈ (PollSeq env nows s).2, e.clientOf ≠ c := by
  intro nows
  induction nows with
  | nil => intro s _ e he; simp [PollSeq] at he
  | cons now rest ih =>
    intro s hcl e he
    have hstep := SinkPoll_no_client env now s c hcl
    rcases hp : SinkPoll env now s with ⟨s', events⟩
    rw [hp] at hstep
    rcases hr : PollSeq env rest s' with ⟨s'', events'⟩
    simp only [PollSeq, hp, hr] at he
    rcases List.mem_append.mp he with he | he
    · exact hstep.1 e he
    · have := ih s' hstep.2
      rw [hr] at this
      exact this e he

/-- C4 counterexample: with two queued single-press requests (ids 1 and 2,
clients 1 and 2) and `inter_token_frame_delay = 0`, a single `Poll()`
dispatches `PRESS A` for request 1, completes and pops it, then dispatches
`PRESS B` for request 2 and pops it too — two distinct `PendingRequest`s
advance (and complete) during one poll tick, so "at most one
PendingRequest advances per poll" is false as stated. -/
theorem c4_counterexample_two_requests_advance_in_one_poll :
    (SinkPoll frameEnv 0 twoPressState).2 =
      [SinkEvent.key 1 1 "PRESS A", SinkEvent.key 2 2 "PRESS B"] ∧
    (SinkPoll frameEnv 0 twoPressState).1.pending = [] ∧
    (1 : Nat) ≠ 2 := by
  refine ⟨rfl, rfl, by decide⟩

/-- C4 (amended): in every single `Poll()` invocation, each pending
request has at most one primitive key action (PRESS/DOWN/UP) dispatched to
the keyboard on its behalf; more than one request may however advance in
the same tick, because a completed head request is popped and the next
request is processed in the same poll. -/
theorem c4_at_most_one_key_action_per_request_per_poll (env : SinkEnv)
    (now : Nat) (s : SinkState)
    (hnd : (s.pending.map PendingRequest.id).Nodup) (i : Nat) :
    ((SinkPoll env now s).2.countP (SinkEvent.isKeyFor i)) ≤ 1 := by
  have := pollLoop_key_bound env now s.closeAfterResponse s.tokenFrameSpacing
    s.pending hnd i
  rcases hrec : pollLoop env now s.closeAfterResponse s.tokenFrameSpacing
    s.pending with ⟨pending', events⟩
  rw [hrec] at this
  simp only [SinkPoll, hrec]
  exact this

/-- Witness for C4 at the concrete two-request state. -/
theorem c4_at_most_one_key_action_per_request_per_poll_witness :
    ((twoPressState.pending.map PendingRequest.id).Nodup) ∧
    ((SinkPoll frameEnv 0 twoPressState).2.countP (SinkEvent.isKeyFor 1)) ≤ 1 :=
  ⟨by decide,
   c4_at_most_one_key_action_per_request_per_poll frameEnv 0 twoPressState
     (by decide) 1⟩

/-- C7 counterexample: `Execute` of a non-frame plan with
`close_after_response` off queues a request from client 7 with
`notify_completion = false`; `CancelClient(7)` drops it and calls the
close hook but never invokes its completion callback, so "the completion
callback has been invoked with failure for every pending request whose
origin is c" is false as stated. -/
theorem c7_counterexample_non_deferred_request_cancelled_without_callback :
    client7PressState.pending.map
        (fun r => (r.client, r.notifyCompletion)) = [(7, false)] ∧
    (SinkCancelClient frameEnv 7 client7PressState).2 = [SinkEvent.close 7] :=
  ⟨rfl, rfl⟩

/-- C7 (amended): after `CancelClient(c)`, the completion callback has been
invoked with failure for every pending request from `c` that was marked to
notify completion (the deferred ones: frame-requesting or under
`close_after_response`); every pending request from `c` is removed, the
close hook is called for `c`, and no subsequent sequence of `Poll()` calls
produces any send, reply, key injection, close or completion attributable
to a request whose origin was `c`. -/
theorem c7_cancel_client_spec (env : SinkEnv) (c : Nat) (s : SinkState) :
    (∀ r ∈ s.pending, r.client = c → r.notifyCompletion = true →
      env.completePresent = true →
      SinkEvent.complete r.id r.client false ∈ (SinkCancelClient env c s).2) ∧
    (∀ q ∈ (SinkCancelClient env c s).1.pending, q.client ≠ c) ∧
    (env.closePresent = true → SinkEvent.close c ∈ (SinkCancelClient env c s).2) ∧
    (∀ (nows : List Nat),
      ∀ e ∈ (PollSeq env nows (SinkCancelClient env c s).1).2,
        e.clientOf ≠ c) := by
  refine ⟨?_, ?_, ?_, ?_⟩
  · intro r hr hrc hn hcp
    simp only [SinkCancelClient]
    refine List.mem_append.mpr (Or.inl ?_)
    refine List.mem_filterMap.mpr ⟨r, ?_, ?_⟩
    · exact List.mem_filter.mpr ⟨hr, by simp [hrc]⟩
    · simp [hn, hcp]
  · intro q hq
    simp only [SinkCancelClient] at hq
    have := List.mem_filter.mp hq
    simpa using this.2
  · intro hcp
    simp only [SinkCancelClient]
    exact List.mem_append.mpr (Or.inr (by simp [hcp]))
  · intro nows e he
    refine PollSeq_no_client env c nows (SinkCancelClient env c s).1 ?_ e he
    intro q hq
    simp only [SinkCancelClient] at hq
    have := List.mem_filter.mp hq
    simpa using this.2

/-- Witness for C7: cancelling client 7 on a queue holding a deferred
frame request from client 7 (id 1) and a request from client 9 fails the
callback of the deferred request, removes client 7's requests, closes
client 7, and two subsequent polls produce no event for client 7. -/
theorem c7_cancel_client_spec_witness :
    SinkEvent.complete 1 7 false ∈
      (SinkCancelClient frameEnv 7 client7FrameState).2 ∧
    (∀ q ∈ (SinkCancelClient frameEnv 7 client7FrameState).1.pending,
      q.client ≠ 7) ∧
    SinkEvent.close 7 ∈ (SinkCancelClient frameEnv 7 client7FrameState).2 ∧
    (∀ e ∈ (PollSeq frameEnv [0, 1]
        (SinkCancelClient frameEnv 7 client7FrameState).1).2,
      e.clientOf ≠ 7) := by
  have h := c7_cancel_client_spec frameEnv 7 client7FrameState
  refine ⟨?_, h.2.1, h.2.2.1 rfl, fun e he => h.2.2.2 [0, 1] e he⟩
  exact h.1
    { id := 1, client := 7, actions := [makeKeyAction .press "A"],
      requestFrame := true, notifyCompletion := true }
    (by decide) rfl rfl rfl

end Textmode
